import Mathlib

/-!
Verification of the SongAI backend (`server.py`) against its specification.

The development shallowly embeds the two Flask handlers (`get_transcript`,
`analyze_lyrics`), the quote-sanitation routine `clean_quotes` (a pipeline of
five regular-expression substitutions), the helper `analyze_with_ai`, and the
behaviour of Python's `json.loads` on which the handlers rely.  Strings are
modelled as `List Char` (Lean `String.data`), and each `re.sub` call is
modelled by a deterministic left-to-right scanner whose matcher reproduces the
concrete pattern's backtracking-free semantics.
-/

/-- Python's `\s` character class, restricted to the whitespace characters that
can actually appear here (ASCII whitespace plus the common Unicode ones). -/
def isPyWs (c : Char) : Bool :=
  c = ' ' || c = '\t' || c = '\n' || c = '\r' || c = '\x0b' || c = '\x0c' ||
  c = '\x1c' || c = '\x1d' || c = '\x1e' || c = '\x1f' || c = '\x85' || c = '\xa0'

/-- Strip the literal word `p` from the front of `l`, returning the remainder. -/
def dropLead : List Char → List Char → Option (List Char)
  | [], l => some l
  | _ :: _, [] => none
  | p :: ps, c :: cs => if c = p then dropLead ps cs else none

def textWord : List Char := ['t', 'e', 'x', 't']

def meaningWord : List Char := ['m', 'e', 'a', 'n', 'i', 'n', 'g']

/-- After the opening quote, try to finish a match of `"(text|meaning)":\s*"`
for the given keyword `w`: expects `w`, then `":`, then whitespace, then `"`.
Returns the input remaining after the match. -/
def keyTail (w : List Char) (cs : List Char) : Option (List Char) :=
  match dropLead w cs with
  | none => none
  | some r1 =>
    match r1 with
    | q :: col :: r2 =>
      if q = '"' ∧ col = ':' then
        match r2.dropWhile isPyWs with
        | [] => none
        | q2 :: r3 => if q2 = '"' then some r3 else none
      else none
    | _ => none

/-- Matcher for step 1, `re.sub(r'"(text|meaning)":\s*"', r'@\1@:@', _)`:
on success returns the replacement text and the rest of the input. -/
def match1 : List Char → Option (List Char × List Char)
  | [] => none
  | c :: cs =>
    if c = '"' then
      match keyTail textWord cs with
      | some r => some ('@' :: textWord ++ ['@', ':', '@'], r)
      | none =>
        match keyTail meaningWord cs with
        | some r => some ('@' :: meaningWord ++ ['@', ':', '@'], r)
        | none => none
    else none

/-- Matcher for step 2, `re.sub(r'"([0-9]+)"', r'@\1@', _)`. -/
def match2 : List Char → Option (List Char × List Char)
  | [] => none
  | c :: cs =>
    if c = '"' then
      match cs.takeWhile Char.isDigit with
      | [] => none
      | d :: ds =>
        match cs.dropWhile Char.isDigit with
        | [] => none
        | q :: rest => if q = '"' then some ('@' :: (d :: ds) ++ ['@'], rest) else none
    else none

/-- After the opening quote, try to finish a match of
`"((?:text|meaning)[^"]*)"` for keyword `w`: expects `w`, then any run of
non-quote characters, then `"`.  Returns the captured run and the rest. -/
def bodyTail (w : List Char) (cs : List Char) : Option (List Char × List Char) :=
  match dropLead w cs with
  | none => none
  | some r1 =>
    match r1.dropWhile (fun c => !(c = '"')) with
    | [] => none
    | q :: rest =>
      if q = '"' then some (r1.takeWhile (fun c => !(c = '"')), rest) else none

/-- Matcher for step 3, `re.sub(r'"((?:text|meaning)[^"]*)"', r'@\1@', _)`. -/
def match3 : List Char → Option (List Char × List Char)
  | [] => none
  | c :: cs =>
    if c = '"' then
      match bodyTail textWord cs with
      | some (mid, r) => some ('@' :: (textWord ++ mid) ++ ['@'], r)
      | none =>
        match bodyTail meaningWord cs with
        | some (mid, r) => some ('@' :: (meaningWord ++ mid) ++ ['@'], r)
        | none => none
    else none

/-- Matcher for step 4, `re.sub(r'"(,\n|}|\n)', r'@\1', _)`: the alternatives
are tried in the pattern's order and are mutually exclusive. -/
def match4 : List Char → Option (List Char × List Char)
  | [] => none
  | [_] => none
  | c :: c2 :: rest =>
    if c = '"' then
      if c2 = '}' then some (['@', '}'], rest)
      else if c2 = '\n' then some (['@', '\n'], rest)
      else
        match rest with
        | [] => none
        | c3 :: rest' =>
          if c2 = ',' ∧ c3 = '\n' then some (['@', ',', '\n'], rest') else none
    else none

/-- Generic model of `re.sub` for a matcher `m`: scan left to right; at each
position either emit the replacement and continue after the match, or emit the
current character.  `fuel` bounds the recursion and is in practice the length
of the input. -/
def runSub (m : List Char → Option (List Char × List Char)) :
    Nat → List Char → List Char
  | 0, l => l
  | _ + 1, [] => []
  | n + 1, c :: cs =>
    match m (c :: cs) with
    | some (rep, rest) => rep ++ runSub m n rest
    | none => c :: runSub m n cs

def sub1 (l : List Char) : List Char := runSub match1 l.length l
def sub2 (l : List Char) : List Char := runSub match2 l.length l
def sub3 (l : List Char) : List Char := runSub match3 l.length l
def sub4 (l : List Char) : List Char := runSub match4 l.length l

/-- Step 5, `re.sub(r'"', '', _)`: remove every remaining double quote. -/
def stripQuotes (l : List Char) : List Char := l.filter (fun c => !(c = '"'))

/-- Final step, `str.replace('@', '"')`: restore the sentinels. -/
def restoreAt (l : List Char) : List Char :=
  l.map (fun c => if c = '@' then '"' else c)

/-- Shallow embedding of `clean_quotes` from `server.py`, on `List Char`. -/
def clean_quotes_list (l : List Char) : List Char :=
  restoreAt (stripQuotes (sub4 (sub3 (sub2 (sub1 l)))))

/-- Shallow embedding of `clean_quotes` from `server.py`. -/
def clean_quotes (s : String) : String :=
  String.mk (clean_quotes_list s.data)

/-! ## Model of Python `json` values and `json.loads` -/

/-- A parsed JSON value as produced by Python's `json.loads`.  Numbers keep
their grammatical parts (sign, integer digits, optional fraction digits,
optional exponent); `nan`/`inf` model the non-standard `NaN` / `Infinity`
literals `json.loads` accepts. -/
inductive Json where
  | null
  | bool (b : Bool)
  | num (neg : Bool) (ip : List Char) (fp : List Char) (hasFp : Bool)
        (exNeg : Bool) (ex : List Char) (hasEx : Bool)
  | nan
  | inf (neg : Bool)
  | str (s : String)
  | arr (items : List Json)
  | obj (members : List (String × Json))

/-- Hexadecimal digit test for `\uXXXX` escapes. -/
def isHexDig (c : Char) : Bool :=
  c.isDigit || ('a' ≤ c && c ≤ 'f') || ('A' ≤ c && c ≤ 'F')

/-- Value of a hexadecimal digit. -/
def hexVal (c : Char) : Nat :=
  if c.isDigit then c.toNat - '0'.toNat
  else if 'a' ≤ c && c ≤ 'f' then c.toNat - 'a'.toNat + 10
  else c.toNat - 'A'.toNat + 10

/-- JSON whitespace (what `json.loads` skips between tokens). -/
def isJsonWs (c : Char) : Bool := c = ' ' || c = '\t' || c = '\n' || c = '\r'

def skipWs (l : List Char) : List Char := l.dropWhile isJsonWs

/-- Decode one string body (after the opening quote), per `json.loads` in
strict mode: raw control characters are rejected, escapes are decoded. -/
def pStr : List Char → Option (String × List Char)
  | [] => none
  | c :: rest =>
    if c = '"' then some ("", rest)
    else if c = '\\' then
      match rest with
      | [] => none
      | e :: rest2 =>
        (match e with
         | '"' => pStr rest2 |>.map (fun (s, r) => (⟨'"' :: s.data⟩, r))
         | '\\' => pStr rest2 |>.map (fun (s, r) => (⟨'\\' :: s.data⟩, r))
         | '/' => pStr rest2 |>.map (fun (s, r) => (⟨'/' :: s.data⟩, r))
         | 'b' => pStr rest2 |>.map (fun (s, r) => (⟨'\x08' :: s.data⟩, r))
         | 'f' => pStr rest2 |>.map (fun (s, r) => (⟨'\x0c' :: s.data⟩, r))
         | 'n' => pStr rest2 |>.map (fun (s, r) => (⟨'\n' :: s.data⟩, r))
         | 'r' => pStr rest2 |>.map (fun (s, r) => (⟨'\r' :: s.data⟩, r))
         | 't' => pStr rest2 |>.map (fun (s, r) => (⟨'\t' :: s.data⟩, r))
         | 'u' =>
           match rest2 with
           | h1 :: h2 :: h3 :: h4 :: rest' =>
             if isHexDig h1 && isHexDig h2 && isHexDig h3 && isHexDig h4 then
               let n := 4096 * hexVal h1 + 256 * hexVal h2 + 16 * hexVal h3 + hexVal h4
               pStr rest' |>.map (fun (s, r) => (⟨Char.ofNat n :: s.data⟩, r))
             else none
           | _ => none
         | _ => none)
    else if c.toNat < 32 then none
    else pStr rest |>.map (fun (s, r) => (⟨c :: s.data⟩, r))

/-- Decode a JSON number per the grammar `-?(0|[1-9]\d*)(\.\d+)?([eE][-+]?\d+)?`. -/
def pNum (l : List Char) : Option (Json × List Char) :=
  let (neg, l1) : Bool × List Char :=
    match l with
    | '-' :: r => (true, r)
    | _ => (false, l)
  match l1 with
  | '0' :: r2 => pNumFrac neg ['0'] r2
  | c :: r2 =>
    if c.isDigit && !(c = '0') then
      pNumFrac neg (c :: r2.takeWhile Char.isDigit) (r2.dropWhile Char.isDigit)
    else none
  | [] => none
where
  pNumFrac (neg : Bool) (ip : List Char) (l : List Char) : Option (Json × List Char) :=
    match l with
    | '.' :: r =>
      match r.takeWhile Char.isDigit with
      | [] => none
      | fp => pNumExp neg ip fp true (r.dropWhile Char.isDigit)
    | _ => pNumExp neg ip [] false l
  pNumExp (neg : Bool) (ip fp : List Char) (hasFp : Bool) (l : List Char) :
      Option (Json × List Char) :=
    match l with
    | 'e' :: r => pNumExpTail neg ip fp hasFp r
    | 'E' :: r => pNumExpTail neg ip fp hasFp r
    | _ => some (Json.num neg ip fp hasFp false [] false, l)
  pNumExpTail (neg : Bool) (ip fp : List Char) (hasFp : Bool) (l : List Char) :
      Option (Json × List Char) :=
    let (en, l1) : Bool × List Char :=
      match l with
      | '-' :: r => (true, r)
      | '+' :: r => (false, r)
      | _ => (false, l)
    match l1.takeWhile Char.isDigit with
    | [] => none
    | e => some (Json.num neg ip fp hasFp en e true, l1.dropWhile Char.isDigit)

/-- Insert into an object under construction the way a Python `dict` literal
build does: an existing key keeps its position but its value is replaced. -/
def objIns (acc : List (String × Json)) (k : String) (v : Json) :
    List (String × Json) :=
  if acc.any (fun p => p.1 = k) then
    acc.map (fun p => if p.1 = k then (k, v) else p)
  else acc ++ [(k, v)]

mutual

/-- Parse one JSON value; the input must start with a non-whitespace token. -/
def pVal : Nat → List Char → Option (Json × List Char)
  | 0, _ => none
  | n + 1, l =>
    match l with
    | '{' :: r =>
      (match skipWs r with
       | '}' :: r' => some (Json.obj [], r')
       | r'' => pMembers n [] r'')
    | '[' :: r =>
      (match skipWs r with
       | ']' :: r' => some (Json.arr [], r')
       | r'' => pItems n [] r'')
    | '"' :: r => (pStr r).map (fun (s, r') => (Json.str s, r'))
    | 't' :: r => (dropLead ['r', 'u', 'e'] r).map (fun r' => (Json.bool true, r'))
    | 'f' :: r => (dropLead ['a', 'l', 's', 'e'] r).map (fun r' => (Json.bool false, r'))
    | 'n' :: r => (dropLead ['u', 'l', 'l'] r).map (fun r' => (Json.null, r'))
    | 'N' :: r => (dropLead ['a', 'N'] r).map (fun r' => (Json.nan, r'))
    | 'I' :: r =>
      (dropLead ['n', 'f', 'i', 'n', 'i', 't', 'y'] r).map
        (fun r' => (Json.inf false, r'))
    | '-' :: 'I' :: r =>
      (dropLead ['n', 'f', 'i', 'n', 'i', 't', 'y'] r).map
        (fun r' => (Json.inf true, r'))
    | _ => pNum l

/-- Parse the members of an object, after `{` and leading whitespace, knowing
the object is not empty. -/
def pMembers : Nat → List (String × Json) → List Char →
    Option (Json × List Char)
  | 0, _, _ => none
  | n + 1, acc, l =>
    match l with
    | '"' :: r =>
      match pStr r with
      | none => none
      | some (k, r1) =>
        match skipWs r1 with
        | ':' :: r2 =>
          match pVal n (skipWs r2) with
          | none => none
          | some (v, r3) =>
            match skipWs r3 with
            | ',' :: r4 => pMembers n (objIns acc k v) (skipWs r4)
            | '}' :: r4 => some (Json.obj (objIns acc k v), r4)
            | _ => none
        | _ => none
    | _ => none

/-- Parse the items of an array, after `[` and leading whitespace, knowing the
array is not empty. -/
def pItems : Nat → List Json → List Char → Option (Json × List Char)
  | 0, _, _ => none
  | n + 1, acc, l =>
    match pVal n l with
    | none => none
    | some (v, r1) =>
      match skipWs r1 with
      | ',' :: r2 => pItems n (acc ++ [v]) (skipWs r2)
      | ']' :: r2 => some (Json.arr (acc ++ [v]), r2)
      | _ => none

end

/-- Model of `json.loads`: `none` when the call raises `json.JSONDecodeError`. -/
def jsonParse (s : String) : Option Json :=
  let l := skipWs s.data
  match pVal (l.length + 1) l with
  | some (j, r) => if skipWs r = [] then some j else none
  | none => none

/-! ## Model of the Flask handlers

A handler is modelled as a pure function from the decoded request plus the
outcome of the (single) outbound provider call to the pair of the response
`(status, body)` and a record of whether/how the provider was called.  A
request body of `none` models a request that fails `request.is_json`
(no JSON content type); `some j` models a JSON request whose decoded payload
is `j`. -/

structure TranscriptEntry where
  text : String
  start : Int
  duration : Int
deriving DecidableEq

/-- The ordered language-preference list passed to the transcript provider. -/
def transcriptLanguages : List String :=
  ["hi-Latn", "hi", "es", "en-IN", "en", "en-GB"]

/-- The JSON error envelope the handlers produce. -/
def errObj (msg : String) : Json := Json.obj [("error", Json.str msg)]

/-- Shallow embedding of the `/get_transcript` handler.  `provider` is
`YouTubeTranscriptApi.get_transcript` (video id, languages,
preserve_formatting); the second component of the result records the arguments
of the provider call, or `none` when no call was made. -/
def get_transcript (videoId : Option String)
    (provider : String → List String → Bool → Except String (List TranscriptEntry)) :
    (Nat × Json) × Option (String × List String × Bool) :=
  match videoId with
  | none => ((400, errObj "No video ID provided"), none)
  | some v =>
    if v = "" then ((400, errObj "No video ID provided"), none)
    else
      match provider v transcriptLanguages true with
      | .ok ts =>
        ((200, Json.obj [("transcript", Json.arr (ts.map (fun e => Json.str e.text)))]),
         some (v, transcriptLanguages, true))
      | .error e =>
        ((500, errObj ("Transcript fetch error: " ++ e)),
         some (v, transcriptLanguages, true))

/-- Outcome of the call to the completion provider
(`client.messages.create` followed by `message.content[0].text`): either the
text of the completion, or the message of the exception the call raised. -/
inductive CompletionOutcome where
  | ok (text : String)
  | err (msg : String)

/-- The substitute message `analyze_with_ai` returns when the sanitized
completion still fails JSON validation. -/
def aiInvalidJsonMsg : String :=
  "Error: Invalid JSON response from AI model. Please try again."

/-- Shallow embedding of `analyze_with_ai` from `server.py`: sanitize the
completion text, validate it with `json.loads`, and fall back to fixed or
API-error messages exactly as the code does. -/
def analyze_with_ai (outcome : CompletionOutcome) : String :=
  match outcome with
  | .ok text =>
    let finalResponse := clean_quotes text
    match jsonParse finalResponse with
    | some _ => finalResponse
    | none => aiInvalidJsonMsg
  | .err msg => "An error occurred with Anthropic API: " ++ msg

/-- Python truthiness of a decoded JSON value (`if not lyrics`). -/
def pyFalsy : Json → Bool
  | .null => true
  | .bool b => !b
  | .num _ ip fp _ _ _ _ => ip.all (fun c => c = '0') && fp.all (fun c => c = '0')
  | .nan => false
  | .inf _ => false
  | .str s => s == ""
  | .arr items => items.isEmpty
  | .obj ms => ms.isEmpty

/-- Python `len` of a decoded JSON value; `none` models the `TypeError` raised
on values without a length. -/
def pyLen : Json → Option Nat
  | .str s => some s.length
  | .arr items => some items.length
  | .obj ms => some ms.length
  | _ => none

/-- Python type name of a decoded JSON value, as appears in error messages. -/
def pyTypeName : Json → String
  | .null => "NoneType"
  | .bool _ => "bool"
  | .num _ _ _ hasFp _ _ hasEx => if hasFp || hasEx then "float" else "int"
  | .nan => "float"
  | .inf _ => "float"
  | .str _ => "str"
  | .arr _ => "list"
  | .obj _ => "dict"

/-- Shallow embedding of the `/analyze_lyrics` handler.  The `Bool` result
records whether the completion provider was called.  The two 500 branches
model the `except` clause of the handler catching the `AttributeError` /
`TypeError` that `request.json.get` / `len` raise on payloads of the wrong
shape. -/
def analyze_lyrics (body : Option Json) (outcome : CompletionOutcome) :
    (Nat × Json) × Bool :=
  match body with
  | none => ((400, errObj "Content-Type must be application/json"), false)
  | some (Json.obj ms) =>
    match List.lookup "lyrics" ms with
    | none => ((400, errObj "No lyrics provided"), false)
    | some v =>
      if pyFalsy v then ((400, errObj "No lyrics provided"), false)
      else
        match pyLen v with
        | none =>
          ((500, errObj ("Analysis error: object of type '" ++ pyTypeName v ++
            "' has no len()")), false)
        | some n =>
          if 10000 < n then ((400, errObj "Lyrics exceed maximum length"), false)
          else
            let analysis := analyze_with_ai outcome
            match jsonParse analysis with
            | some parsed =>
              ((200, Json.obj [("analysis", parsed), ("format", Json.str "json")]), true)
            | none =>
              ((200, Json.obj [("analysis", Json.str analysis), ("format", Json.str "raw")]), true)
  | some j =>
    ((500, errObj ("Analysis error: '" ++ pyTypeName j ++
      "' object has no attribute 'get'")), false)

/-- The request body of `/analyze_lyrics` as the handler distinguishes it:
`notJson` is a request whose Content-Type fails `request.is_json`; `badJson`
is a request whose Content-Type is JSON but whose payload does not decode, so
that `request.json` raises `BadRequest` (carrying the given message); `json`
is a decoded payload. -/
inductive LyricsBody where
  | notJson
  | badJson (emsg : String)
  | json (j : Json)

/-- The text of the `BadRequest` exception `request.json` raises on a
malformed payload. -/
def badRequestMsg : String :=
  "400 Bad Request: The browser (or proxy) sent a request that this server could not understand."

/-- Shallow embedding of the `/analyze_lyrics` handler over the full request
body.  A malformed payload with a JSON Content-Type passes the `is_json`
check, then `request.json` raises inside the `try` block and the blanket
`except` answers 500 `Analysis error: …`; the remaining cases are those of
`analyze_lyrics`. -/
def analyze_lyrics_request (body : LyricsBody) (outcome : CompletionOutcome) :
    (Nat × Json) × Bool :=
  match body with
  | .notJson => ((400, errObj "Content-Type must be application/json"), false)
  | .badJson emsg => ((500, errObj ("Analysis error: " ++ emsg)), false)
  | .json j => analyze_lyrics (some j) outcome

/-! ## The expected analysis format

`mkJsonL ps` builds the string
`{"K1": {"text":"V1",\n"meaning":"M1"},\n ... }` for the list of
(key, text, meaning) triples `ps` — the shape of analysis output the
sanitizer is tuned to, with a newline after each separating comma and no
whitespace between `"text":`/`"meaning":` and the opening value quote.
The `entryS1`/`entryS2`/`entryS4` variants are the intermediate images of one
entry under the successive substitution steps of `clean_quotes`. -/

def mkEntry (k v m : List Char) : List Char :=
  '"' :: k ++ '"' :: ':' :: ' ' :: '{' :: '"' :: textWord ++ '"' :: ':' :: '"' :: v ++
    '"' :: ',' :: '\n' :: '"' :: meaningWord ++ '"' :: ':' :: '"' :: m ++ ['"', '}']

def entriesList : List (List Char × List Char × List Char) → List Char
  | [] => []
  | [(k, v, m)] => mkEntry k v m
  | (k, v, m) :: p :: ps => mkEntry k v m ++ ',' :: '\n' :: entriesList (p :: ps)

def mkJsonL (ps : List (List Char × List Char × List Char)) : List Char :=
  '{' :: entriesList ps ++ ['}']

def entryS1 (k v m : List Char) : List Char :=
  '"' :: k ++ '"' :: ':' :: ' ' :: '{' :: '@' :: textWord ++ '@' :: ':' :: '@' :: v ++
    '"' :: ',' :: '\n' :: '@' :: meaningWord ++ '@' :: ':' :: '@' :: m ++ ['"', '}']

def entriesS1 : List (List Char × List Char × List Char) → List Char
  | [] => []
  | [(k, v, m)] => entryS1 k v m
  | (k, v, m) :: p :: ps => entryS1 k v m ++ ',' :: '\n' :: entriesS1 (p :: ps)

def entryS2 (k v m : List Char) : List Char :=
  '@' :: k ++ '@' :: ':' :: ' ' :: '{' :: '@' :: textWord ++ '@' :: ':' :: '@' :: v ++
    '"' :: ',' :: '\n' :: '@' :: meaningWord ++ '@' :: ':' :: '@' :: m ++ ['"', '}']

def entriesS2 : List (List Char × List Char × List Char) → List Char
  | [] => []
  | [(k, v, m)] => entryS2 k v m
  | (k, v, m) :: p :: ps => entryS2 k v m ++ ',' :: '\n' :: entriesS2 (p :: ps)

def entryS4 (k v m : List Char) : List Char :=
  '@' :: k ++ '@' :: ':' :: ' ' :: '{' :: '@' :: textWord ++ '@' :: ':' :: '@' :: v ++
    '@' :: ',' :: '\n' :: '@' :: meaningWord ++ '@' :: ':' :: '@' :: m ++ ['@', '}']

def entriesS4 : List (List Char × List Char × List Char) → List Char
  | [] => []
  | [(k, v, m)] => entryS4 k v m
  | (k, v, m) :: p :: ps => entryS4 k v m ++ ',' :: '\n' :: entriesS4 (p :: ps)

/-- Characters allowed in a field value: no sentinel `@`, no backslash, no
control characters. -/
def valCharsOK (v : List Char) : Bool :=
  v.all (fun c => !(c = '@') && !(c = '\\') && 32 ≤ c.toNat)

/-- Every embedded quote must be followed by a character that cannot start one
of the preserved-pattern tails (`text…`, `meaning…`, a digit run, or a closing
brace); a quote at the end of the value is harmless. -/
def quoteFollowOK : List Char → Bool
  | [] => true
  | c :: rest =>
    (if c = '"' then
       match rest with
       | [] => true
       | c2 :: _ => !(c2 = 't') && !(c2 = 'm') && !(c2 = '}') && !c2.isDigit
     else true) && quoteFollowOK rest

/-- A field value that may contain embedded stray quotes, in positions the
sanitizer handles. -/
def valOK (v : List Char) : Bool := valCharsOK v && quoteFollowOK v

/-- A field value containing no quote character at all. -/
def strOK (v : List Char) : Bool := valCharsOK v && v.all (fun c => !(c = '"'))

/-- An object key as produced by the model: a nonempty digit string. -/
def keyOK (k : List Char) : Bool := !k.isEmpty && k.all Char.isDigit

def entryOK (p : List Char × List Char × List Char) : Bool :=
  keyOK p.1 && valOK p.2.1 && valOK p.2.2

def entryStrOK (p : List Char × List Char × List Char) : Bool :=
  keyOK p.1 && strOK p.2.1 && strOK p.2.2

/-- Remove the embedded quotes from the values of an entry — what
`clean_quotes` does to an entry of the expected format. -/
def stripEntry (p : List Char × List Char × List Char) :
    List Char × List Char × List Char :=
  (p.1, stripQuotes p.2.1, stripQuotes p.2.2)

/-! ## Concrete inputs used by the counterexamples -/

/-- The spec's example input:
`{"1": {"text": "He said "hi" to her", "meaning": "A greeting"}}`. -/
def c4input : String := String.mk
  ['{', '"', '1', '"', ':', ' ', '{', '"', 't', 'e', 'x', 't', '"', ':', ' ',
   '"', 'H', 'e', ' ', 's', 'a', 'i', 'd', ' ', '"', 'h', 'i', '"', ' ', 't',
   'o', ' ', 'h', 'e', 'r', '"', ',', ' ', '"', 'm', 'e', 'a', 'n', 'i', 'n',
   'g', '"', ':', ' ', '"', 'A', ' ', 'g', 'r', 'e', 'e', 't', 'i', 'n', 'g',
   '"', '}', '}']

/-- The output the spec claims for `c4input`:
`{"1": {"text": "He said hi to her", "meaning": "A greeting"}}`. -/
def c4claimOut : String := String.mk
  ['{', '"', '1', '"', ':', ' ', '{', '"', 't', 'e', 'x', 't', '"', ':', ' ',
   '"', 'H', 'e', ' ', 's', 'a', 'i', 'd', ' ', 'h', 'i', ' ', 't', 'o', ' ',
   'h', 'e', 'r', '"', ',', ' ', '"', 'm', 'e', 'a', 'n', 'i', 'n', 'g', '"',
   ':', ' ', '"', 'A', ' ', 'g', 'r', 'e', 'e', 't', 'i', 'n', 'g', '"', '}',
   '}']

/-- The example input in the format the sanitizer actually handles: a newline
after the comma between the fields and no space after `"text":`/`"meaning":`:
`{"1": {"text":"He said "hi" to her",\n"meaning":"A greeting"}}`. -/
def c4inputNl : String := String.mk
  (mkJsonL [(['1'],
    ['H', 'e', ' ', 's', 'a', 'i', 'd', ' ', '"', 'h', 'i', '"', ' ', 't', 'o',
     ' ', 'h', 'e', 'r'],
    ['A', ' ', 'g', 'r', 'e', 'e', 't', 'i', 'n', 'g'])])

/-- What `clean_quotes` produces on `c4inputNl`:
`{"1": {"text":"He said hi to her",\n"meaning":"A greeting"}}`. -/
def c4outNl : String := String.mk
  (mkJsonL [(['1'],
    ['H', 'e', ' ', 's', 'a', 'i', 'd', ' ', 'h', 'i', ' ', 't', 'o', ' ', 'h',
     'e', 'r'],
    ['A', ' ', 'g', 'r', 'e', 'e', 't', 'i', 'n', 'g'])])

/-- A plain valid JSON object with no escape sequences, outside the expected
analysis shape: `{"a": "b"}`. -/
def c3input : String := String.mk
  ['{', '"', 'a', '"', ':', ' ', '"', 'b', '"', '}']

/-- A string of exactly 10,000 characters, for the length-boundary check. -/
def lyrics10k : String := String.mk (List.replicate 10000 'a')

/-- A string of exactly 10,001 characters, just over the length bound. -/
def lyrics10001 : String := String.mk (List.replicate 10001 'a')

/-- An input containing a well-formed `"text": "…"` / `"meaning": "…"` pair with
an embedded quote in the text body, surrounded by one stray leading character:
`A{"1": {"text":"Hi "yo" !",\n"meaning":"greet"}}`. -/
def c5input : String := String.mk
  ('A' :: mkJsonL [(['1'],
    ['H', 'i', ' ', '"', 'y', 'o', '"', ' ', '!'],
    ['g', 'r', 'e', 'e', 't'])])


/-! ## Basic properties of the substitution scanners -/

theorem dropLead_eq {p l r : List Char} (h : dropLead p l = some r) : l = p ++ r := by
  induction p generalizing l with
  | nil => exact Option.some.inj h
  | cons x xs ih =>
    cases l with
    | nil => simp [dropLead] at h
    | cons c cs =>
      by_cases hc : c = x
      · subst hc
        simp only [dropLead, if_pos rfl] at h
        simpa using ih h
      · simp [dropLead, hc] at h

theorem dropLead_none_of_ne {x : Char} {xs : List Char} {c : Char} {cs : List Char}
    (h : c ≠ x) : dropLead (x :: xs) (c :: cs) = none := by
  simp [dropLead, h]

theorem keyTail_shape {w cs r : List Char} (h : keyTail w cs = some r) :
    ∃ ws, cs = w ++ '"' :: ':' :: ws ++ '"' :: r ∧ ws.all isPyWs := by
  cases hd : dropLead w cs with
  | none => simp [keyTail, hd] at h
  | some r1 =>
    cases r1 with
    | nil => simp [keyTail, hd] at h
    | cons q r1' =>
      cases r1' with
      | nil => simp [keyTail, hd] at h
      | cons col r2 =>
        simp only [keyTail, hd] at h
        by_cases hq : q = '"' ∧ col = ':'
        · rw [if_pos hq] at h
          obtain ⟨hq1, hq2⟩ := hq
          subst hq1 hq2
          cases hw : r2.dropWhile isPyWs with
          | nil => simp [hw] at h
          | cons q2 r3 =>
            simp only [hw] at h
            by_cases hq2 : q2 = '"'
            · subst hq2
              rw [if_pos rfl] at h
              simp only [Option.some.injEq] at h
              subst h
              refine ⟨r2.takeWhile isPyWs, ?_, ?_⟩
              · have h3 : r2 = r2.takeWhile isPyWs ++ '"' :: r3 := by
                  conv_lhs => rw [← List.takeWhile_append_dropWhile isPyWs r2]
                  rw [hw]
                rw [dropLead_eq hd]
                conv_lhs => rw [h3]
                simp
              · exact List.all_eq_true.2 (fun c hc => List.mem_takeWhile_imp hc)
            · rw [if_neg hq2] at h; exact absurd h (by simp)
        · rw [if_neg hq] at h; exact absurd h (by simp)

theorem match1_shape {l rep rest : List Char} (h : match1 l = some (rep, rest)) :
    ∃ w ws, (w = textWord ∨ w = meaningWord) ∧
      l = '"' :: (w ++ '"' :: ':' :: ws ++ '"' :: rest) ∧ ws.all isPyWs ∧
      rep = '@' :: w ++ ['@', ':', '@'] := by
  cases l with
  | nil => simp [match1] at h
  | cons c cs =>
    simp only [match1] at h
    by_cases hc : c = '"'
    · subst hc
      rw [if_pos rfl] at h
      cases ht : keyTail textWord cs with
      | some r =>
        simp only [ht, Option.some.injEq, Prod.mk.injEq] at h
        obtain ⟨hrep, hr⟩ := h
        subst hr
        obtain ⟨ws, hcs, hws⟩ := keyTail_shape ht
        exact ⟨textWord, ws, Or.inl rfl, by rw [hcs], hws, hrep.symm⟩
      | none =>
        simp only [ht] at h
        cases hm : keyTail meaningWord cs with
        | some r =>
          simp only [hm, Option.some.injEq, Prod.mk.injEq] at h
          obtain ⟨hrep, hr⟩ := h
          subst hr
          obtain ⟨ws, hcs, hws⟩ := keyTail_shape hm
          exact ⟨meaningWord, ws, Or.inr rfl, by rw [hcs], hws, hrep.symm⟩
        | none => simp [hm] at h
    · rw [if_neg hc] at h; exact absurd h (by simp)

theorem match2_shape {l rep rest : List Char} (h : match2 l = some (rep, rest)) :
    ∃ ds, ds ≠ [] ∧ ds.all Char.isDigit ∧ l = '"' :: ds ++ '"' :: rest ∧
      rep = '@' :: ds ++ ['@'] := by
  cases l with
  | nil => simp [match2] at h
  | cons c cs =>
    simp only [match2] at h
    by_cases hc : c = '"'
    · subst hc
      rw [if_pos rfl] at h
      cases htw : cs.takeWhile Char.isDigit with
      | nil => simp [htw] at h
      | cons d ds =>
        simp only [htw] at h
        cases hdw : cs.dropWhile Char.isDigit with
        | nil => simp [hdw] at h
        | cons q rest' =>
          simp only [hdw] at h
          by_cases hq : q = '"'
          · subst hq
            rw [if_pos rfl] at h
            simp only [Option.some.injEq, Prod.mk.injEq] at h
            obtain ⟨hrep, hr⟩ := h
            subst hr
            refine ⟨d :: ds, by simp, ?_, ?_, hrep.symm⟩
            · rw [← htw]
              exact List.all_eq_true.2 (fun c hc => List.mem_takeWhile_imp hc)
            · have h3 : cs = (d :: ds) ++ '"' :: rest' := by
                conv_lhs => rw [← List.takeWhile_append_dropWhile Char.isDigit cs]
                rw [htw, hdw]
              rw [h3]
              simp
          · rw [if_neg hq] at h; exact absurd h (by simp)
    · rw [if_neg hc] at h; exact absurd h (by simp)

theorem bodyTail_shape {w cs mid rest : List Char}
    (h : bodyTail w cs = some (mid, rest)) :
    cs = w ++ mid ++ '"' :: rest ∧ mid.all (fun c => !(c = '"')) := by
  cases hd : dropLead w cs with
  | none => simp [bodyTail, hd] at h
  | some r1 =>
    simp only [bodyTail, hd] at h
    cases hw : r1.dropWhile (fun c => !(c = '"')) with
    | nil => simp [hw] at h
    | cons q rest' =>
      simp only [hw] at h
      by_cases hq : q = '"'
      · subst hq
        rw [if_pos rfl] at h
        simp only [Option.some.injEq, Prod.mk.injEq] at h
        obtain ⟨hmid, hr⟩ := h
        subst hr
        constructor
        · have h3 : r1 = mid ++ '"' :: rest' := by
            conv_lhs =>
              rw [← List.takeWhile_append_dropWhile (fun c => !(c = '"')) r1]
            rw [hw, hmid]
          rw [dropLead_eq hd, h3]
          simp
        · rw [← hmid]
          exact List.all_eq_true.2
            (fun c hc => @List.mem_takeWhile_imp Char (fun c => !(c = '"')) r1 c hc)
      · rw [if_neg hq] at h; exact absurd h (by simp)

theorem match3_shape {l rep rest : List Char} (h : match3 l = some (rep, rest)) :
    ∃ w mid, (w = textWord ∨ w = meaningWord) ∧ mid.all (fun c => !(c = '"')) ∧
      l = '"' :: (w ++ mid ++ '"' :: rest) ∧ rep = '@' :: (w ++ mid) ++ ['@'] := by
  cases l with
  | nil => simp [match3] at h
  | cons c cs =>
    simp only [match3] at h
    by_cases hc : c = '"'
    · subst hc
      rw [if_pos rfl] at h
      cases ht : bodyTail textWord cs with
      | some p =>
        obtain ⟨mid', r⟩ := p
        simp only [ht, Option.some.injEq, Prod.mk.injEq] at h
        obtain ⟨hrep, hr⟩ := h
        subst hr
        obtain ⟨hcs, hmid⟩ := bodyTail_shape ht
        exact ⟨textWord, mid', Or.inl rfl, hmid, by rw [hcs], hrep.symm⟩
      | none =>
        simp only [ht] at h
        cases hm : bodyTail meaningWord cs with
        | some p =>
          obtain ⟨mid', r⟩ := p
          simp only [hm, Option.some.injEq, Prod.mk.injEq] at h
          obtain ⟨hrep, hr⟩ := h
          subst hr
          obtain ⟨hcs, hmid⟩ := bodyTail_shape hm
          exact ⟨meaningWord, mid', Or.inr rfl, hmid, by rw [hcs], hrep.symm⟩
        | none => simp [hm] at h
    · rw [if_neg hc] at h; exact absurd h (by simp)

theorem match4_shape {l rep rest : List Char} (h : match4 l = some (rep, rest)) :
    ∃ g, (g = [',', '\n'] ∨ g = ['}'] ∨ g = ['\n']) ∧ l = '"' :: g ++ rest ∧
      rep = '@' :: g := by
  match l with
  | [] => simp [match4] at h
  | [c] => simp [match4] at h
  | c :: c2 :: cs =>
    cases cs with
    | nil =>
      simp only [match4] at h
      by_cases hc : c = '"'
      · subst hc
        rw [if_pos rfl] at h
        by_cases h2 : c2 = '}'
        · subst h2
          rw [if_pos rfl] at h
          simp only [Option.some.injEq, Prod.mk.injEq] at h
          exact ⟨['}'], Or.inr (Or.inl rfl), by simp [h.2], by simp [h.1.symm]⟩
        · rw [if_neg h2] at h
          by_cases h3 : c2 = '\n'
          · subst h3
            rw [if_pos rfl] at h
            simp only [Option.some.injEq, Prod.mk.injEq] at h
            exact ⟨['\n'], Or.inr (Or.inr rfl), by simp [h.2], by simp [h.1.symm]⟩
          · rw [if_neg h3] at h; exact absurd h (by simp)
      · rw [if_neg hc] at h; exact absurd h (by simp)
    | cons c3 cs' =>
      simp only [match4] at h
      by_cases hc : c = '"'
      · subst hc
        rw [if_pos rfl] at h
        by_cases h2 : c2 = '}'
        · subst h2
          rw [if_pos rfl] at h
          simp only [Option.some.injEq, Prod.mk.injEq] at h
          exact ⟨['}'], Or.inr (Or.inl rfl), by simp [h.2], by simp [h.1.symm]⟩
        · rw [if_neg h2] at h
          by_cases h3 : c2 = '\n'
          · subst h3
            rw [if_pos rfl] at h
            simp only [Option.some.injEq, Prod.mk.injEq] at h
            exact ⟨['\n'], Or.inr (Or.inr rfl), by simp [h.2], by simp [h.1.symm]⟩
          · rw [if_neg h3] at h
            by_cases h4 : c2 = ',' ∧ c3 = '\n'
            · rw [if_pos h4] at h
              obtain ⟨h5, h6⟩ := h4
              subst h5 h6
              simp only [Option.some.injEq, Prod.mk.injEq] at h
              exact ⟨[',', '\n'], Or.inl rfl, by simp [h.2], by simp [h.1.symm]⟩
            · rw [if_neg h4] at h; exact absurd h (by simp)
      · rw [if_neg hc] at h; exact absurd h (by simp)

theorem match1_consumes {l rep rest : List Char} (h : match1 l = some (rep, rest)) :
    rest.length < l.length := by
  obtain ⟨w, ws, _, hl, _, _⟩ := match1_shape h
  subst hl; simp; omega

theorem match2_consumes {l rep rest : List Char} (h : match2 l = some (rep, rest)) :
    rest.length < l.length := by
  obtain ⟨ds, _, _, hl, _⟩ := match2_shape h
  subst hl; simp; omega

theorem match3_consumes {l rep rest : List Char} (h : match3 l = some (rep, rest)) :
    rest.length < l.length := by
  obtain ⟨w, mid, _, _, hl, _⟩ := match3_shape h
  subst hl; simp; omega

theorem match4_consumes {l rep rest : List Char} (h : match4 l = some (rep, rest)) :
    rest.length < l.length := by
  obtain ⟨g, _, hl, _⟩ := match4_shape h
  subst hl; simp; omega

/-- With enough fuel (at least the length of the input), the scanner result
does not depend on the exact fuel. -/
theorem runSub_fuel (m : List Char → Option (List Char × List Char))
    (hm : ∀ {l rep rest : List Char}, m l = some (rep, rest) → rest.length < l.length) :
    ∀ (n n' : Nat) (l : List Char), l.length ≤ n → l.length ≤ n' →
      runSub m n l = runSub m n' l := by
  intro n
  induction n with
  | zero =>
    intro n' l hl _
    have : l = [] := List.length_eq_zero.1 (Nat.le_zero.1 hl)
    subst this
    cases n' <;> simp [runSub]
  | succ n ih =>
    intro n' l hl hl'
    cases l with
    | nil => cases n' <;> simp [runSub]
    | cons c cs =>
      cases n' with
      | zero => simp at hl'
      | succ n' =>
        simp only [runSub]
        cases hM : m (c :: cs) with
        | some p =>
          obtain ⟨rep, rest⟩ := p
          have hlt := hm hM
          simp only [List.length_cons] at hl hl' hlt
          show rep ++ runSub m n rest = rep ++ runSub m n' rest
          rw [ih n' rest (by omega) (by omega)]
        | none =>
          simp only [List.length_cons] at hl hl'
          show c :: runSub m n cs = c :: runSub m n' cs
          rw [ih n' cs (by omega) (by omega)]

/-- One scanner step on a position with no match. -/
theorem runSubL_cons_none {m : List Char → Option (List Char × List Char)}
    {c : Char} {cs : List Char} (h : m (c :: cs) = none) :
    runSub m (c :: cs).length (c :: cs) = c :: runSub m cs.length cs := by
  simp [runSub, h]

/-- One scanner step on a matching position. -/
theorem runSubL_match {m : List Char → Option (List Char × List Char)}
    (hm : ∀ {l rep rest : List Char}, m l = some (rep, rest) → rest.length < l.length)
    {l rep rest : List Char} (h : m l = some (rep, rest)) :
    runSub m l.length l = rep ++ runSub m rest.length rest := by
  cases l with
  | nil => exact absurd (hm h) (by simp)
  | cons c cs =>
    have h1 : runSub m (c :: cs).length (c :: cs) = rep ++ runSub m cs.length rest := by
      simp [runSub, h]
    rw [h1]
    have hlt := hm h
    simp only [List.length_cons] at hlt
    rw [runSub_fuel m hm cs.length rest.length rest (by omega) le_rfl]

/-- The scanner passes over a segment in which no match can begin. -/
theorem runSub_append {m : List Char → Option (List Char × List Char)}
    (xs rest : List Char)
    (h : ∀ (a b : List Char), xs = a ++ b → b ≠ [] → m (b ++ rest) = none) :
    runSub m (xs ++ rest).length (xs ++ rest) = xs ++ runSub m rest.length rest := by
  induction xs with
  | nil => simp
  | cons c xs' ih =>
    have hc : m (c :: (xs' ++ rest)) = none := h [] (c :: xs') rfl (by simp)
    have h1 := runSubL_cons_none hc
    simp only [List.cons_append]
    rw [h1]
    rw [ih (fun a b hab hb => h (c :: a) b (by rw [hab]; rfl) hb)]

/-! Specialisations of the scanner lemmas to the four passes. -/

theorem sub1_cons_none {c : Char} {cs : List Char} (h : match1 (c :: cs) = none) :
    sub1 (c :: cs) = c :: sub1 cs := runSubL_cons_none h

theorem sub1_match {l rep rest : List Char} (h : match1 l = some (rep, rest)) :
    sub1 l = rep ++ sub1 rest := runSubL_match (fun h => match1_consumes h) h

theorem sub1_append {xs rest : List Char}
    (h : ∀ (a b : List Char), xs = a ++ b → b ≠ [] → match1 (b ++ rest) = none) :
    sub1 (xs ++ rest) = xs ++ sub1 rest := runSub_append xs rest h

theorem sub2_cons_none {c : Char} {cs : List Char} (h : match2 (c :: cs) = none) :
    sub2 (c :: cs) = c :: sub2 cs := runSubL_cons_none h

theorem sub2_match {l rep rest : List Char} (h : match2 l = some (rep, rest)) :
    sub2 l = rep ++ sub2 rest := runSubL_match (fun h => match2_consumes h) h

theorem sub2_append {xs rest : List Char}
    (h : ∀ (a b : List Char), xs = a ++ b → b ≠ [] → match2 (b ++ rest) = none) :
    sub2 (xs ++ rest) = xs ++ sub2 rest := runSub_append xs rest h

theorem sub3_cons_none {c : Char} {cs : List Char} (h : match3 (c :: cs) = none) :
    sub3 (c :: cs) = c :: sub3 cs := runSubL_cons_none h

theorem sub3_match {l rep rest : List Char} (h : match3 l = some (rep, rest)) :
    sub3 l = rep ++ sub3 rest := runSubL_match (fun h => match3_consumes h) h

theorem sub3_append {xs rest : List Char}
    (h : ∀ (a b : List Char), xs = a ++ b → b ≠ [] → match3 (b ++ rest) = none) :
    sub3 (xs ++ rest) = xs ++ sub3 rest := runSub_append xs rest h

theorem sub4_cons_none {c : Char} {cs : List Char} (h : match4 (c :: cs) = none) :
    sub4 (c :: cs) = c :: sub4 cs := runSubL_cons_none h

theorem sub4_match {l rep rest : List Char} (h : match4 l = some (rep, rest)) :
    sub4 l = rep ++ sub4 rest := runSubL_match (fun h => match4_consumes h) h

theorem sub4_append {xs rest : List Char}
    (h : ∀ (a b : List Char), xs = a ++ b → b ≠ [] → match4 (b ++ rest) = none) :
    sub4 (xs ++ rest) = xs ++ sub4 rest := runSub_append xs rest h

theorem sub1_nil : sub1 [] = [] := rfl
theorem sub2_nil : sub2 [] = [] := rfl
theorem sub3_nil : sub3 [] = [] := rfl
theorem sub4_nil : sub4 [] = [] := rfl

/-! Positions where the matchers fail. -/

theorem match1_none_head {c : Char} {cs : List Char} (h : ¬c = '"') :
    match1 (c :: cs) = none := by simp [match1, h]

theorem match2_none_head {c : Char} {cs : List Char} (h : ¬c = '"') :
    match2 (c :: cs) = none := by simp [match2, h]

theorem match3_none_head {c : Char} {cs : List Char} (h : ¬c = '"') :
    match3 (c :: cs) = none := by simp [match3, h]

theorem match4_none_head {c : Char} {cs : List Char} (h : ¬c = '"') :
    match4 (c :: cs) = none := by
  cases cs with
  | nil => simp [match4]
  | cons c2 cs' => simp [match4, h]

theorem keyTail_none_quote {w : List Char} {x : Char} {ws : List Char} {c : Char}
    {l : List Char} (hw : w = x :: ws) (h : ¬c = x) : keyTail w (c :: l) = none := by
  subst hw
  simp [keyTail, dropLead_none_of_ne h]

theorem bodyTail_none_quote {w : List Char} {x : Char} {ws : List Char} {c : Char}
    {l : List Char} (hw : w = x :: ws) (h : ¬c = x) :
    bodyTail w (c :: l) = none := by
  subst hw
  simp [bodyTail, dropLead_none_of_ne h]

theorem match1_none_after {c2 : Char} {l : List Char} (h1 : ¬c2 = 't')
    (h2 : ¬c2 = 'm') : match1 ('"' :: c2 :: l) = none := by
  have kt : keyTail textWord (c2 :: l) = none := keyTail_none_quote rfl h1
  have km : keyTail meaningWord (c2 :: l) = none := keyTail_none_quote rfl h2
  simp [match1, kt, km]

theorem match2_none_after {c2 : Char} {l : List Char} (h : ¬c2.isDigit) :
    match2 ('"' :: c2 :: l) = none := by
  have htw : (c2 :: l).takeWhile Char.isDigit = [] := by
    rw [List.takeWhile_cons]
    simp [h]
  simp [match2, htw]

theorem match3_none_after {c2 : Char} {l : List Char} (h1 : ¬c2 = 't')
    (h2 : ¬c2 = 'm') : match3 ('"' :: c2 :: l) = none := by
  have kt : bodyTail textWord (c2 :: l) = none := bodyTail_none_quote rfl h1
  have km : bodyTail meaningWord (c2 :: l) = none := bodyTail_none_quote rfl h2
  simp [match3, kt, km]

theorem match4_none_after {c2 : Char} {l : List Char} (h1 : ¬c2 = '}')
    (h2 : ¬c2 = '\n') (h3 : ¬c2 = ',') : match4 ('"' :: c2 :: l) = none := by
  cases l with
  | nil => simp [match4, h1, h2]
  | cons c3 l' => simp [match4, h1, h2, h3]

theorem match4_none_after2 {c2 c3 : Char} {l : List Char} (h1 : ¬c2 = '}')
    (h2 : ¬c2 = '\n') (h3 : ¬(c2 = ',' ∧ c3 = '\n')) :
    match4 ('"' :: c2 :: c3 :: l) = none := by
  simp only [match4, if_pos rfl, if_neg h1, if_neg h2, if_neg h3]
  simp

/-! ## No match can begin inside a safe field value -/

theorem quoteFollowOK_decomp {v a b : List Char} (hv : quoteFollowOK v = true)
    (hd : v = a ++ '"' :: b) :
    b = [] ∨ ∃ c bs, b = c :: bs ∧ ¬c = 't' ∧ ¬c = 'm' ∧ ¬c = '}' ∧ ¬c.isDigit := by
  induction a generalizing v with
  | nil =>
    subst hd
    cases b with
    | nil => exact Or.inl rfl
    | cons c bs =>
      simp only [List.nil_append] at hv
      have heq : quoteFollowOK ('"' :: c :: bs) =
          ((!(c = 't') && !(c = 'm') && !(c = '}') && !c.isDigit) &&
            quoteFollowOK (c :: bs)) := rfl
      rw [heq, Bool.and_eq_true] at hv
      have h1 := hv.1
      simp only [Bool.and_eq_true, Bool.not_eq_true', decide_eq_false_iff_not,
        Bool.not_eq_true] at h1
      refine Or.inr ⟨c, bs, rfl, h1.1.1.1, h1.1.1.2, h1.1.2, ?_⟩
      simpa using h1.2
  | cons x a' ih =>
    subst hd
    simp only [List.cons_append] at hv
    have heq : quoteFollowOK (x :: (a' ++ '"' :: b)) =
        ((if x = '"' then
            match a' ++ '"' :: b with
            | [] => true
            | c2 :: _ => !(c2 = 't') && !(c2 = 'm') && !(c2 = '}') && !c2.isDigit
          else true) && quoteFollowOK (a' ++ '"' :: b)) := rfl
      
    rw [heq, Bool.and_eq_true] at hv
    exact ih hv.2 rfl

theorem valCharsOK_mem {v : List Char} (hv : valCharsOK v = true) {c : Char}
    (hc : c ∈ v) : ¬c = '@' ∧ ¬c = '\\' ∧ 32 ≤ c.toNat := by
  have h := List.all_eq_true.1 hv c hc
  simp only [Bool.and_eq_true, Bool.not_eq_true', decide_eq_false_iff_not,
    decide_eq_true_eq] at h
  exact ⟨h.1.1, h.1.2, h.2⟩

theorem ne_nl_of_32 {c : Char} (h : 32 ≤ c.toNat) : ¬c = '\n' := by
  intro he
  subst he
  exact absurd h (by decide)

theorem valOK_chars {v : List Char} (hv : valOK v = true) : valCharsOK v = true := by
  unfold valOK at hv
  rw [Bool.and_eq_true] at hv
  exact hv.1

theorem valOK_quotes {v : List Char} (hv : valOK v = true) :
    quoteFollowOK v = true := by
  unfold valOK at hv
  rw [Bool.and_eq_true] at hv
  exact hv.2

theorem match1_none_in_val {v r a b : List Char} (hv : valOK v = true)
    (hd : v = a ++ b) (hb : b ≠ []) : match1 (b ++ '"' :: r) = none := by
  cases b with
  | nil => exact absurd rfl hb
  | cons c b' =>
    by_cases hc : c = '"'
    · subst hc
      have hdec := quoteFollowOK_decomp (valOK_quotes hv) hd
      cases hdec with
      | inl hnil =>
        subst hnil
        exact match1_none_after (by decide) (by decide)
      | inr hex =>
        obtain ⟨c2, bs, hb', h1, h2, h3, h4⟩ := hex
        subst hb'
        exact match1_none_after h1 h2
    · exact match1_none_head hc

theorem match2_none_in_val {v r a b : List Char} (hv : valOK v = true)
    (hd : v = a ++ b) (hb : b ≠ []) : match2 (b ++ '"' :: r) = none := by
  cases b with
  | nil => exact absurd rfl hb
  | cons c b' =>
    by_cases hc : c = '"'
    · subst hc
      have hdec := quoteFollowOK_decomp (valOK_quotes hv) hd
      cases hdec with
      | inl hnil =>
        subst hnil
        exact match2_none_after (by decide)
      | inr hex =>
        obtain ⟨c2, bs, hb', h1, h2, h3, h4⟩ := hex
        subst hb'
        exact match2_none_after h4
    · exact match2_none_head hc

theorem match3_none_in_val {v r a b : List Char} (hv : valOK v = true)
    (hd : v = a ++ b) (hb : b ≠ []) : match3 (b ++ '"' :: r) = none := by
  cases b with
  | nil => exact absurd rfl hb
  | cons c b' =>
    by_cases hc : c = '"'
    · subst hc
      have hdec := quoteFollowOK_decomp (valOK_quotes hv) hd
      cases hdec with
      | inl hnil =>
        subst hnil
        exact match3_none_after (by decide) (by decide)
      | inr hex =>
        obtain ⟨c2, bs, hb', h1, h2, h3, h4⟩ := hex
        subst hb'
        exact match3_none_after h1 h2
    · exact match3_none_head hc

theorem match4_none_in_val {v r a b : List Char} (hv : valOK v = true)
    (hd : v = a ++ b) (hb : b ≠ []) : match4 (b ++ '"' :: r) = none := by
  cases b with
  | nil => exact absurd rfl hb
  | cons c b' =>
    by_cases hc : c = '"'
    · subst hc
      have hdec := quoteFollowOK_decomp (valOK_quotes hv) hd
      cases hdec with
      | inl hnil =>
        subst hnil
        exact match4_none_after (by decide) (by decide) (by decide)
      | inr hex =>
        obtain ⟨c2, bs, hb', h1, h2, h3, h4⟩ := hex
        subst hb'
        have hc2 : c2 ∈ v := by rw [hd]; simp
        have hnl : ¬c2 = '\n' := ne_nl_of_32 (valCharsOK_mem (valOK_chars hv) hc2).2.2
        cases bs with
        | nil =>
          exact match4_none_after2 h3 hnl (by intro hand; exact absurd hand.2 (by decide))
        | cons c3 bs' =>
          have hc3 : c3 ∈ v := by rw [hd]; simp
          have hnl3 : ¬c3 = '\n' :=
            ne_nl_of_32 (valCharsOK_mem (valOK_chars hv) hc3).2.2
          exact match4_none_after2 h3 hnl (by intro hand; exact absurd hand.2 hnl3)
    · exact match4_none_head hc

/-! The scanners pass over a safe value followed by its closing quote. -/

theorem sub1_val (v r : List Char) (hv : valOK v = true) :
    sub1 (v ++ '"' :: r) = v ++ sub1 ('"' :: r) :=
  sub1_append (fun a b hab hb => match1_none_in_val hv hab hb)

theorem sub2_val (v r : List Char) (hv : valOK v = true) :
    sub2 (v ++ '"' :: r) = v ++ sub2 ('"' :: r) :=
  sub2_append (fun a b hab hb => match2_none_in_val hv hab hb)

theorem sub3_val (v r : List Char) (hv : valOK v = true) :
    sub3 (v ++ '"' :: r) = v ++ sub3 ('"' :: r) :=
  sub3_append (fun a b hab hb => match3_none_in_val hv hab hb)

theorem sub4_val (v r : List Char) (hv : valOK v = true) :
    sub4 (v ++ '"' :: r) = v ++ sub4 ('"' :: r) :=
  sub4_append (fun a b hab hb => match4_none_in_val hv hab hb)

/-! ## Single-character scanner steps -/

theorem sub1_cons_char {c : Char} {l : List Char} (h : ¬c = '"') :
    sub1 (c :: l) = c :: sub1 l := sub1_cons_none (match1_none_head h)

theorem sub2_cons_char {c : Char} {l : List Char} (h : ¬c = '"') :
    sub2 (c :: l) = c :: sub2 l := sub2_cons_none (match2_none_head h)

theorem sub3_cons_char {c : Char} {l : List Char} (h : ¬c = '"') :
    sub3 (c :: l) = c :: sub3 l := sub3_cons_none (match3_none_head h)

theorem sub4_cons_char {c : Char} {l : List Char} (h : ¬c = '"') :
    sub4 (c :: l) = c :: sub4 l := sub4_cons_none (match4_none_head h)

theorem sub1_quote_then {c2 : Char} {l : List Char} (h1 : ¬c2 = 't')
    (h2 : ¬c2 = 'm') : sub1 ('"' :: c2 :: l) = '"' :: sub1 (c2 :: l) :=
  sub1_cons_none (match1_none_after h1 h2)

theorem sub2_quote_then {c2 : Char} {l : List Char} (h : ¬c2.isDigit) :
    sub2 ('"' :: c2 :: l) = '"' :: sub2 (c2 :: l) :=
  sub2_cons_none (match2_none_after h)

theorem sub3_quote_then {c2 : Char} {l : List Char} (h1 : ¬c2 = 't')
    (h2 : ¬c2 = 'm') : sub3 ('"' :: c2 :: l) = '"' :: sub3 (c2 :: l) :=
  sub3_cons_none (match3_none_after h1 h2)

theorem sub4_quote_then {c2 : Char} {l : List Char} (h1 : ¬c2 = '}')
    (h2 : ¬c2 = '\n') (h3 : ¬c2 = ',') :
    sub4 ('"' :: c2 :: l) = '"' :: sub4 (c2 :: l) :=
  sub4_cons_none (match4_none_after h1 h2 h3)

/-! Skipping a quote-free segment. -/

theorem mem_of_decomp {c : Char} {xs b' : List Char} {a : List Char}
    (hab : xs = a ++ c :: b') : c ∈ xs := by
  rw [hab]; simp

theorem sub1_nq (xs : List Char) {rest : List Char}
    (h : xs.all (fun c => !(c = '"')) = true) :
    sub1 (xs ++ rest) = xs ++ sub1 rest := by
  refine sub1_append (fun a b hab hb => ?_)
  cases b with
  | nil => exact absurd rfl hb
  | cons c b' =>
    have hc : ¬c = '"' := by simpa using List.all_eq_true.1 h c (mem_of_decomp hab)
    exact match1_none_head hc

theorem sub2_nq (xs : List Char) {rest : List Char}
    (h : xs.all (fun c => !(c = '"')) = true) :
    sub2 (xs ++ rest) = xs ++ sub2 rest := by
  refine sub2_append (fun a b hab hb => ?_)
  cases b with
  | nil => exact absurd rfl hb
  | cons c b' =>
    have hc : ¬c = '"' := by simpa using List.all_eq_true.1 h c (mem_of_decomp hab)
    exact match2_none_head hc

theorem sub3_nq (xs : List Char) {rest : List Char}
    (h : xs.all (fun c => !(c = '"')) = true) :
    sub3 (xs ++ rest) = xs ++ sub3 rest := by
  refine sub3_append (fun a b hab hb => ?_)
  cases b with
  | nil => exact absurd rfl hb
  | cons c b' =>
    have hc : ¬c = '"' := by simpa using List.all_eq_true.1 h c (mem_of_decomp hab)
    exact match3_none_head hc

theorem sub4_nq (xs : List Char) {rest : List Char}
    (h : xs.all (fun c => !(c = '"')) = true) :
    sub4 (xs ++ rest) = xs ++ sub4 rest := by
  refine sub4_append (fun a b hab hb => ?_)
  cases b with
  | nil => exact absurd rfl hb
  | cons c b' =>
    have hc : ¬c = '"' := by simpa using List.all_eq_true.1 h c (mem_of_decomp hab)
    exact match4_none_head hc

/-! Digits are not special characters. -/

theorem digit_ne_quote {c : Char} (h : c.isDigit = true) : ¬c = '"' := by
  intro he; subst he; exact absurd h (by decide)

theorem digit_ne_t {c : Char} (h : c.isDigit = true) : ¬c = 't' := by
  intro he; subst he; exact absurd h (by decide)

theorem digit_ne_m {c : Char} (h : c.isDigit = true) : ¬c = 'm' := by
  intro he; subst he; exact absurd h (by decide)

theorem digits_nq {k : List Char} (h : k.all Char.isDigit = true) :
    k.all (fun c => !(c = '"')) = true := by
  apply List.all_eq_true.2
  intro c hc
  simpa using digit_ne_quote (List.all_eq_true.1 h c hc)

/-! Evaluation of `takeWhile`/`dropWhile` over a run of matching characters. -/

theorem takeWhile_append_all {p : Char → Bool} {xs rest : List Char}
    (h : xs.all p = true) : (xs ++ rest).takeWhile p = xs ++ rest.takeWhile p := by
  induction xs with
  | nil => simp
  | cons c cs ih =>
    simp only [List.all_cons, Bool.and_eq_true] at h
    simp only [List.cons_append, List.takeWhile_cons, h.1, ih h.2]
    simp

theorem dropWhile_append_all {p : Char → Bool} {xs rest : List Char}
    (h : xs.all p = true) : (xs ++ rest).dropWhile p = rest.dropWhile p := by
  induction xs with
  | nil => simp
  | cons c cs ih =>
    simp only [List.all_cons, Bool.and_eq_true] at h
    simp only [List.cons_append, List.dropWhile_cons, h.1, ih h.2]
    simp [h.1]

/-- Step 2 replaces a quoted digit-run key. -/
theorem match2_key {k rest : List Char} (hk : k.all Char.isDigit = true)
    (hne : k ≠ []) :
    match2 ('"' :: (k ++ '"' :: rest)) = some ('@' :: k ++ ['@'], rest) := by
  have htw : (k ++ '"' :: rest).takeWhile Char.isDigit = k := by
    rw [takeWhile_append_all hk]
    simp [List.takeWhile_cons]
  have hdw : (k ++ '"' :: rest).dropWhile Char.isDigit = '"' :: rest := by
    rw [dropWhile_append_all hk]
    simp [List.dropWhile_cons]
  cases k with
  | nil => exact absurd rfl hne
  | cons d ds =>
    simp only [match2, if_pos rfl, htw, hdw]
    simp

/-! ## Scanning one entry of the expected format -/

theorem match1_text {v R : List Char} :
    match1 ('"' :: 't' :: 'e' :: 'x' :: 't' :: '"' :: ':' :: '"' :: (v ++ R)) =
      some ('@' :: textWord ++ ['@', ':', '@'], v ++ R) := rfl

theorem match1_meaning {m R : List Char} :
    match1 ('"' :: 'm' :: 'e' :: 'a' :: 'n' :: 'i' :: 'n' :: 'g' :: '"' :: ':' ::
        '"' :: (m ++ R)) =
      some ('@' :: meaningWord ++ ['@', ':', '@'], m ++ R) := rfl

theorem keyOK_parts {k : List Char} (hk : keyOK k = true) :
    k ≠ [] ∧ k.all Char.isDigit = true := by
  unfold keyOK at hk
  rw [Bool.and_eq_true] at hk
  constructor
  · intro he; subst he; simp at hk
  · exact hk.2

theorem sub1_entry (k v m tail : List Char) (hk : keyOK k = true)
    (hv : valOK v = true) (hm : valOK m = true) :
    sub1 (mkEntry k v m ++ tail) = entryS1 k v m ++ sub1 tail := by
  obtain ⟨hkne, hkdig⟩ := keyOK_parts hk
  obtain ⟨d, ds, hkds⟩ : ∃ d ds, k = d :: ds := by
    cases k with
    | nil => exact absurd rfl hkne
    | cons d ds => exact ⟨d, ds, rfl⟩
  subst hkds
  have hd : d.isDigit = true := by
    have := List.all_eq_true.1 hkdig d (by simp)
    simpa using this
  have hds : ds.all Char.isDigit = true := by
    apply List.all_eq_true.2
    intro c hc
    exact List.all_eq_true.1 hkdig c (by simp [hc])
  have h0 : mkEntry (d :: ds) v m ++ tail =
      '"' :: d :: (ds ++
        ('"' :: ':' :: ' ' :: '{' ::
          ('"' :: 't' :: 'e' :: 'x' :: 't' :: '"' :: ':' :: '"' ::
            (v ++
              ('"' :: ',' :: '\n' ::
                ('"' :: 'm' :: 'e' :: 'a' :: 'n' :: 'i' :: 'n' :: 'g' :: '"' :: ':' ::
                  '"' ::
                  (m ++
                    ('"' :: '}' :: tail)))))))) := by
    simp [mkEntry, textWord, meaningWord]
  rw [h0]
  rw [sub1_quote_then (digit_ne_t hd) (digit_ne_m hd)]
  rw [sub1_cons_char (digit_ne_quote hd)]
  rw [sub1_nq ds (digits_nq hds)]
  rw [sub1_quote_then (show ¬(':' : Char) = 't' by decide)
    (show ¬(':' : Char) = 'm' by decide)]
  rw [sub1_cons_char (show ¬(':' : Char) = '"' by decide)]
  rw [sub1_cons_char (show ¬(' ' : Char) = '"' by decide)]
  rw [sub1_cons_char (show ¬('{' : Char) = '"' by decide)]
  rw [sub1_match match1_text]
  rw [sub1_val v _ hv]
  rw [sub1_quote_then (show ¬(',' : Char) = 't' by decide)
    (show ¬(',' : Char) = 'm' by decide)]
  rw [sub1_cons_char (show ¬(',' : Char) = '"' by decide)]
  rw [sub1_cons_char (show ¬('\n' : Char) = '"' by decide)]
  rw [sub1_match match1_meaning]
  rw [sub1_val m _ hm]
  rw [sub1_quote_then (show ¬('}' : Char) = 't' by decide)
    (show ¬('}' : Char) = 'm' by decide)]
  rw [sub1_cons_char (show ¬('}' : Char) = '"' by decide)]
  simp [entryS1, textWord, meaningWord]

theorem match4_comma {l : List Char} :
    match4 ('"' :: ',' :: '\n' :: l) = some (['@', ',', '\n'], l) := rfl

theorem match4_brace {l : List Char} :
    match4 ('"' :: '}' :: l) = some (['@', '}'], l) := rfl

theorem sub2_entry (k v m tail : List Char) (hk : keyOK k = true)
    (hv : valOK v = true) (hm : valOK m = true) :
    sub2 (entryS1 k v m ++ tail) = entryS2 k v m ++ sub2 tail := by
  obtain ⟨hkne, hkdig⟩ := keyOK_parts hk
  have h0 : entryS1 k v m ++ tail =
      '"' :: (k ++ ('"' ::
        (([':', ' ', '{', '@', 't', 'e', 'x', 't', '@', ':', '@'] : List Char) ++
          (v ++
            ('"' :: ',' :: '\n' ::
              ((['@', 'm', 'e', 'a', 'n', 'i', 'n', 'g', '@', ':', '@'] : List Char) ++
                (m ++
                  ('"' :: '}' :: tail)))))))) := by
    simp [entryS1, textWord, meaningWord]
  rw [h0]
  rw [sub2_match (match2_key hkdig hkne)]
  rw [sub2_nq [':', ' ', '{', '@', 't', 'e', 'x', 't', '@', ':', '@'] (by decide)]
  rw [sub2_val v _ hv]
  rw [sub2_quote_then (show ¬(',' : Char).isDigit by decide)]
  rw [sub2_cons_char (show ¬(',' : Char) = '"' by decide)]
  rw [sub2_cons_char (show ¬('\n' : Char) = '"' by decide)]
  rw [sub2_nq ['@', 'm', 'e', 'a', 'n', 'i', 'n', 'g', '@', ':', '@'] (by decide)]
  rw [sub2_val m _ hm]
  rw [sub2_quote_then (show ¬('}' : Char).isDigit by decide)]
  rw [sub2_cons_char (show ¬('}' : Char) = '"' by decide)]
  simp [entryS2, textWord, meaningWord]

theorem sub3_entry (k v m tail : List Char) (hk : keyOK k = true)
    (hv : valOK v = true) (hm : valOK m = true) :
    sub3 (entryS2 k v m ++ tail) = entryS2 k v m ++ sub3 tail := by
  obtain ⟨hkne, hkdig⟩ := keyOK_parts hk
  have h0 : entryS2 k v m ++ tail =
      '@' :: (k ++
        ((['@', ':', ' ', '{', '@', 't', 'e', 'x', 't', '@', ':', '@'] : List Char) ++
          (v ++
            ('"' :: ',' :: '\n' ::
              ((['@', 'm', 'e', 'a', 'n', 'i', 'n', 'g', '@', ':', '@'] : List Char) ++
                (m ++
                  ('"' :: '}' :: tail))))))) := by
    simp [entryS2, textWord, meaningWord]
  rw [h0]
  rw [sub3_cons_char (show ¬('@' : Char) = '"' by decide)]
  rw [sub3_nq k (digits_nq hkdig)]
  rw [sub3_nq ['@', ':', ' ', '{', '@', 't', 'e', 'x', 't', '@', ':', '@'] (by decide)]
  rw [sub3_val v _ hv]
  rw [sub3_quote_then (show ¬(',' : Char) = 't' by decide)
    (show ¬(',' : Char) = 'm' by decide)]
  rw [sub3_cons_char (show ¬(',' : Char) = '"' by decide)]
  rw [sub3_cons_char (show ¬('\n' : Char) = '"' by decide)]
  rw [sub3_nq ['@', 'm', 'e', 'a', 'n', 'i', 'n', 'g', '@', ':', '@'] (by decide)]
  rw [sub3_val m _ hm]
  rw [sub3_quote_then (show ¬('}' : Char) = 't' by decide)
    (show ¬('}' : Char) = 'm' by decide)]
  rw [sub3_cons_char (show ¬('}' : Char) = '"' by decide)]
  simp [entryS2, textWord, meaningWord]

theorem sub4_entry (k v m tail : List Char) (hk : keyOK k = true)
    (hv : valOK v = true) (hm : valOK m = true) :
    sub4 (entryS2 k v m ++ tail) = entryS4 k v m ++ sub4 tail := by
  obtain ⟨hkne, hkdig⟩ := keyOK_parts hk
  have h0 : entryS2 k v m ++ tail =
      '@' :: (k ++
        ((['@', ':', ' ', '{', '@', 't', 'e', 'x', 't', '@', ':', '@'] : List Char) ++
          (v ++
            ('"' :: ',' :: '\n' ::
              ((['@', 'm', 'e', 'a', 'n', 'i', 'n', 'g', '@', ':', '@'] : List Char) ++
                (m ++
                  ('"' :: '}' :: tail))))))) := by
    simp [entryS2, textWord, meaningWord]
  rw [h0]
  rw [sub4_cons_char (show ¬('@' : Char) = '"' by decide)]
  rw [sub4_nq k (digits_nq hkdig)]
  rw [sub4_nq ['@', ':', ' ', '{', '@', 't', 'e', 'x', 't', '@', ':', '@'] (by decide)]
  rw [sub4_val v _ hv]
  rw [sub4_match match4_comma]
  rw [sub4_nq ['@', 'm', 'e', 'a', 'n', 'i', 'n', 'g', '@', ':', '@'] (by decide)]
  rw [sub4_val m _ hm]
  rw [sub4_match match4_brace]
  simp [entryS4, textWord, meaningWord]

/-! ## Scanning the whole generated object -/

theorem sub1_entriesList (ps : List (List Char × List Char × List Char))
    (h : ∀ p ∈ ps, entryOK p = true) (tail : List Char) :
    sub1 (entriesList ps ++ tail) = entriesS1 ps ++ sub1 tail := by
  induction ps with
  | nil => simp [entriesList, entriesS1]
  | cons p ps' ih =>
    obtain ⟨k, v, m⟩ := p
    have hp : entryOK (k, v, m) = true := h _ (by simp)
    have hk : keyOK k = true := by
      unfold entryOK at hp; rw [Bool.and_eq_true, Bool.and_eq_true] at hp
      exact hp.1.1
    have hv : valOK v = true := by
      unfold entryOK at hp; rw [Bool.and_eq_true, Bool.and_eq_true] at hp
      exact hp.1.2
    have hm : valOK m = true := by
      unfold entryOK at hp; rw [Bool.and_eq_true] at hp
      exact hp.2
    cases ps' with
    | nil =>
      show sub1 (mkEntry k v m ++ tail) = entryS1 k v m ++ sub1 tail
      exact sub1_entry k v m tail hk hv hm
    | cons q qs =>
      have hstep : entriesList ((k, v, m) :: q :: qs) ++ tail =
          mkEntry k v m ++ (',' :: '\n' :: (entriesList (q :: qs) ++ tail)) := by
        simp [entriesList]
      rw [hstep, sub1_entry k v m _ hk hv hm]
      rw [sub1_cons_char (show ¬(',' : Char) = '"' by decide)]
      rw [sub1_cons_char (show ¬('\n' : Char) = '"' by decide)]
      rw [ih (fun p hp => h p (by simp [hp]))]
      simp [entriesS1]

theorem sub2_entriesList (ps : List (List Char × List Char × List Char))
    (h : ∀ p ∈ ps, entryOK p = true) (tail : List Char) :
    sub2 (entriesS1 ps ++ tail) = entriesS2 ps ++ sub2 tail := by
  induction ps with
  | nil => simp [entriesS1, entriesS2]
  | cons p ps' ih =>
    obtain ⟨k, v, m⟩ := p
    have hp : entryOK (k, v, m) = true := h _ (by simp)
    have hk : keyOK k = true := by
      unfold entryOK at hp; rw [Bool.and_eq_true, Bool.and_eq_true] at hp
      exact hp.1.1
    have hv : valOK v = true := by
      unfold entryOK at hp; rw [Bool.and_eq_true, Bool.and_eq_true] at hp
      exact hp.1.2
    have hm : valOK m = true := by
      unfold entryOK at hp; rw [Bool.and_eq_true] at hp
      exact hp.2
    cases ps' with
    | nil =>
      show sub2 (entryS1 k v m ++ tail) = entryS2 k v m ++ sub2 tail
      exact sub2_entry k v m tail hk hv hm
    | cons q qs =>
      have hstep : entriesS1 ((k, v, m) :: q :: qs) ++ tail =
          entryS1 k v m ++ (',' :: '\n' :: (entriesS1 (q :: qs) ++ tail)) := by
        simp [entriesS1]
      rw [hstep, sub2_entry k v m _ hk hv hm]
      rw [sub2_cons_char (show ¬(',' : Char) = '"' by decide)]
      rw [sub2_cons_char (show ¬('\n' : Char) = '"' by decide)]
      rw [ih (fun p hp => h p (by simp [hp]))]
      simp [entriesS2]

theorem sub3_entriesList (ps : List (List Char × List Char × List Char))
    (h : ∀ p ∈ ps, entryOK p = true) (tail : List Char) :
    sub3 (entriesS2 ps ++ tail) = entriesS2 ps ++ sub3 tail := by
  induction ps with
  | nil => simp [entriesS2]
  | cons p ps' ih =>
    obtain ⟨k, v, m⟩ := p
    have hp : entryOK (k, v, m) = true := h _ (by simp)
    have hk : keyOK k = true := by
      unfold entryOK at hp; rw [Bool.and_eq_true, Bool.and_eq_true] at hp
      exact hp.1.1
    have hv : valOK v = true := by
      unfold entryOK at hp; rw [Bool.and_eq_true, Bool.and_eq_true] at hp
      exact hp.1.2
    have hm : valOK m = true := by
      unfold entryOK at hp; rw [Bool.and_eq_true] at hp
      exact hp.2
    cases ps' with
    | nil =>
      show sub3 (entryS2 k v m ++ tail) = entryS2 k v m ++ sub3 tail
      exact sub3_entry k v m tail hk hv hm
    | cons q qs =>
      have hstep : entriesS2 ((k, v, m) :: q :: qs) ++ tail =
          entryS2 k v m ++ (',' :: '\n' :: (entriesS2 (q :: qs) ++ tail)) := by
        simp [entriesS2]
      rw [hstep, sub3_entry k v m _ hk hv hm]
      rw [sub3_cons_char (show ¬(',' : Char) = '"' by decide)]
      rw [sub3_cons_char (show ¬('\n' : Char) = '"' by decide)]
      rw [ih (fun p hp => h p (by simp [hp]))]
      simp [entriesS2]

theorem sub4_entriesList (ps : List (List Char × List Char × List Char))
    (h : ∀ p ∈ ps, entryOK p = true) (tail : List Char) :
    sub4 (entriesS2 ps ++ tail) = entriesS4 ps ++ sub4 tail := by
  induction ps with
  | nil => simp [entriesS2, entriesS4]
  | cons p ps' ih =>
    obtain ⟨k, v, m⟩ := p
    have hp : entryOK (k, v, m) = true := h _ (by simp)
    have hk : keyOK k = true := by
      unfold entryOK at hp; rw [Bool.and_eq_true, Bool.and_eq_true] at hp
      exact hp.1.1
    have hv : valOK v = true := by
      unfold entryOK at hp; rw [Bool.and_eq_true, Bool.and_eq_true] at hp
      exact hp.1.2
    have hm : valOK m = true := by
      unfold entryOK at hp; rw [Bool.and_eq_true] at hp
      exact hp.2
    cases ps' with
    | nil =>
      show sub4 (entryS2 k v m ++ tail) = entryS4 k v m ++ sub4 tail
      exact sub4_entry k v m tail hk hv hm
    | cons q qs =>
      have hstep : entriesS2 ((k, v, m) :: q :: qs) ++ tail =
          entryS2 k v m ++ (',' :: '\n' :: (entriesS2 (q :: qs) ++ tail)) := by
        simp [entriesS2]
      rw [hstep, sub4_entry k v m _ hk hv hm]
      rw [sub4_cons_char (show ¬(',' : Char) = '"' by decide)]
      rw [sub4_cons_char (show ¬('\n' : Char) = '"' by decide)]
      rw [ih (fun p hp => h p (by simp [hp]))]
      simp [entriesS4]

/-! ## Quote removal and sentinel restoration on the scanned object -/

theorem stripQuotes_append (a b : List Char) :
    stripQuotes (a ++ b) = stripQuotes a ++ stripQuotes b := by
  simp [stripQuotes]

theorem stripQuotes_digits {k : List Char} (h : k.all Char.isDigit = true) :
    stripQuotes k = k := by
  unfold stripQuotes
  apply List.filter_eq_self.2
  intro a ha
  simpa using digit_ne_quote (List.all_eq_true.1 h a ha)

theorem restoreAt_append (a b : List Char) :
    restoreAt (a ++ b) = restoreAt a ++ restoreAt b := by
  simp [restoreAt]

theorem restoreAt_id {l : List Char} (h : ∀ c ∈ l, ¬c = '@') : restoreAt l = l := by
  unfold restoreAt
  induction l with
  | nil => rfl
  | cons c cs ih =>
    simp only [List.map_cons, if_neg (h c (by simp))]
    rw [ih (fun c hc => h c (by simp [hc]))]

theorem stripQuotes_entryS4 (k v m : List Char) (hk : k.all Char.isDigit = true) :
    stripQuotes (entryS4 k v m) = entryS4 k (stripQuotes v) (stripQuotes m) := by
  have h0 : entryS4 k v m =
      ['@'] ++ (k ++
        ((['@', ':', ' ', '{', '@', 't', 'e', 'x', 't', '@', ':', '@'] : List Char) ++
          (v ++
            ((['@', ',', '\n', '@', 'm', 'e', 'a', 'n', 'i', 'n', 'g', '@', ':',
                '@'] : List Char) ++
              (m ++ (['@', '}'] : List Char)))))) := by
    simp [entryS4, textWord, meaningWord]
  rw [h0]
  simp only [stripQuotes_append]
  rw [stripQuotes_digits hk]
  have e1 : stripQuotes ['@'] = ['@'] := by decide
  have e2 : stripQuotes ['@', ':', ' ', '{', '@', 't', 'e', 'x', 't', '@', ':', '@'] =
      ['@', ':', ' ', '{', '@', 't', 'e', 'x', 't', '@', ':', '@'] := by decide
  have e3 : stripQuotes ['@', ',', '\n', '@', 'm', 'e', 'a', 'n', 'i', 'n', 'g', '@',
      ':', '@'] = ['@', ',', '\n', '@', 'm', 'e', 'a', 'n', 'i', 'n', 'g', '@', ':',
      '@'] := by decide
  have e4 : stripQuotes ['@', '}'] = ['@', '}'] := by decide
  rw [e1, e2, e3, e4]
  simp [entryS4, textWord, meaningWord]

theorem restoreAt_entryS4 (k v m : List Char) (hk : k.all Char.isDigit = true)
    (hv : ∀ c ∈ v, ¬c = '@') (hm : ∀ c ∈ m, ¬c = '@') :
    restoreAt (entryS4 k v m) = mkEntry k v m := by
  have h0 : entryS4 k v m =
      ['@'] ++ (k ++
        ((['@', ':', ' ', '{', '@', 't', 'e', 'x', 't', '@', ':', '@'] : List Char) ++
          (v ++
            ((['@', ',', '\n', '@', 'm', 'e', 'a', 'n', 'i', 'n', 'g', '@', ':',
                '@'] : List Char) ++
              (m ++ (['@', '}'] : List Char)))))) := by
    simp [entryS4, textWord, meaningWord]
  rw [h0]
  simp only [restoreAt_append]
  have hkat : restoreAt k = k := by
    apply restoreAt_id
    intro c hc
    have := List.all_eq_true.1 hk c hc
    intro he; subst he; exact absurd this (by decide)
  rw [hkat, restoreAt_id hv, restoreAt_id hm]
  have e1 : restoreAt ['@'] = ['"'] := by decide
  have e2 : restoreAt ['@', ':', ' ', '{', '@', 't', 'e', 'x', 't', '@', ':', '@'] =
      ['"', ':', ' ', '{', '"', 't', 'e', 'x', 't', '"', ':', '"'] := by decide
  have e3 : restoreAt ['@', ',', '\n', '@', 'm', 'e', 'a', 'n', 'i', 'n', 'g', '@',
      ':', '@'] = ['"', ',', '\n', '"', 'm', 'e', 'a', 'n', 'i', 'n', 'g', '"', ':',
      '"'] := by decide
  have e4 : restoreAt ['@', '}'] = ['"', '}'] := by decide
  rw [e1, e2, e3, e4]
  simp [mkEntry, textWord, meaningWord]

theorem stripQuotes_entriesS4 (ps : List (List Char × List Char × List Char))
    (h : ∀ p ∈ ps, entryOK p = true) :
    stripQuotes (entriesS4 ps) = entriesS4 (ps.map stripEntry) := by
  induction ps with
  | nil => simp [entriesS4]; rfl
  | cons p ps' ih =>
    obtain ⟨k, v, m⟩ := p
    have hp : entryOK (k, v, m) = true := h _ (by simp)
    have hk : k.all Char.isDigit = true := by
      unfold entryOK at hp; rw [Bool.and_eq_true, Bool.and_eq_true] at hp
      exact (keyOK_parts hp.1.1).2
    cases ps' with
    | nil =>
      show stripQuotes (entryS4 k v m) = entryS4 k (stripQuotes v) (stripQuotes m)
      exact stripQuotes_entryS4 k v m hk
    | cons q qs =>
      have hstep : entriesS4 ((k, v, m) :: q :: qs) =
          entryS4 k v m ++ (',' :: '\n' :: entriesS4 (q :: qs)) := by
        simp [entriesS4]
      rw [hstep, stripQuotes_append, stripQuotes_entryS4 k v m hk]
      have hsep : stripQuotes (',' :: '\n' :: entriesS4 (q :: qs)) =
          ',' :: '\n' :: stripQuotes (entriesS4 (q :: qs)) := by
        unfold stripQuotes
        simp [List.filter_cons]
      rw [hsep, ih (fun p hp => h p (by simp [hp]))]
      have hmap : (((k, v, m) :: q :: qs).map stripEntry) =
          stripEntry (k, v, m) :: (q :: qs).map stripEntry := by simp
      rw [hmap]
      simp [entriesS4, stripEntry]

theorem restoreAt_entriesS4 (ps : List (List Char × List Char × List Char))
    (h : ∀ p ∈ ps, p.1.all Char.isDigit = true ∧ (∀ c ∈ p.2.1, ¬c = '@') ∧
      (∀ c ∈ p.2.2, ¬c = '@')) :
    restoreAt (entriesS4 ps) = entriesList ps := by
  induction ps with
  | nil => rfl
  | cons p ps' ih =>
    obtain ⟨k, v, m⟩ := p
    obtain ⟨hk, hv, hm⟩ := h _ (List.mem_cons_self _ _)
    cases ps' with
    | nil =>
      show restoreAt (entryS4 k v m) = mkEntry k v m
      exact restoreAt_entryS4 k v m hk hv hm
    | cons q qs =>
      have hstep : entriesS4 ((k, v, m) :: q :: qs) =
          entryS4 k v m ++ (',' :: '\n' :: entriesS4 (q :: qs)) := by
        simp [entriesS4]
      rw [hstep, restoreAt_append, restoreAt_entryS4 k v m hk hv hm]
      have hsep : restoreAt (',' :: '\n' :: entriesS4 (q :: qs)) =
          ',' :: '\n' :: restoreAt (entriesS4 (q :: qs)) := by
        unfold restoreAt
        simp
      rw [hsep, ih (fun p hp => h p (by simp [hp]))]
      simp [entriesList]

/-! ## The sanitizer on objects of the expected format -/

theorem entryOK_strip_facts {ps : List (List Char × List Char × List Char)}
    (h : ∀ p ∈ ps, entryOK p = true) :
    ∀ p ∈ ps.map stripEntry, p.1.all Char.isDigit = true ∧
      (∀ c ∈ p.2.1, ¬c = '@') ∧ (∀ c ∈ p.2.2, ¬c = '@') := by
  intro p hp
  rw [List.mem_map] at hp
  obtain ⟨q, hq, hpq⟩ := hp
  obtain ⟨k, v, m⟩ := q
  have hqo := h _ hq
  unfold entryOK at hqo
  rw [Bool.and_eq_true, Bool.and_eq_true] at hqo
  subst hpq
  refine ⟨(keyOK_parts hqo.1.1).2, ?_, ?_⟩
  · intro c hc
    have hcv : c ∈ v := List.mem_of_mem_filter hc
    exact (valCharsOK_mem (valOK_chars hqo.1.2) hcv).1
  · intro c hc
    have hcm : c ∈ m := List.mem_of_mem_filter hc
    exact (valCharsOK_mem (valOK_chars hqo.2) hcm).1

/-- Main structural result: on a string of the expected analysis format,
`clean_quotes` removes exactly the embedded quotes of the `text`/`meaning`
values and leaves everything else unchanged. -/
theorem clean_quotes_mkJson (ps : List (List Char × List Char × List Char))
    (h : ∀ p ∈ ps, entryOK p = true) :
    clean_quotes_list (mkJsonL ps) = mkJsonL (ps.map stripEntry) := by
  unfold clean_quotes_list mkJsonL
  rw [show (('{' :: entriesList ps) ++ ['}'] : List Char) =
    '{' :: (entriesList ps ++ ['}']) from by simp]
  have s1 : sub1 ('{' :: (entriesList ps ++ ['}'])) =
      '{' :: (entriesS1 ps ++ ['}']) := by
    rw [sub1_cons_char (show ¬('{' : Char) = '"' by decide)]
    rw [sub1_entriesList ps h ['}']]
    rfl
  rw [s1]
  have s2 : sub2 ('{' :: (entriesS1 ps ++ ['}'])) =
      '{' :: (entriesS2 ps ++ ['}']) := by
    rw [sub2_cons_char (show ¬('{' : Char) = '"' by decide)]
    rw [sub2_entriesList ps h ['}']]
    rfl
  rw [s2]
  have s3 : sub3 ('{' :: (entriesS2 ps ++ ['}'])) =
      '{' :: (entriesS2 ps ++ ['}']) := by
    rw [sub3_cons_char (show ¬('{' : Char) = '"' by decide)]
    rw [sub3_entriesList ps h ['}']]
    rfl
  rw [s3]
  have s4 : sub4 ('{' :: (entriesS2 ps ++ ['}'])) =
      '{' :: (entriesS4 ps ++ ['}']) := by
    rw [sub4_cons_char (show ¬('{' : Char) = '"' by decide)]
    rw [sub4_entriesList ps h ['}']]
    rfl
  rw [s4]
  have s5 : stripQuotes ('{' :: (entriesS4 ps ++ ['}'])) =
      '{' :: (entriesS4 (ps.map stripEntry) ++ ['}']) := by
    have : stripQuotes ('{' :: (entriesS4 ps ++ ['}'])) =
        stripQuotes ['{'] ++ (stripQuotes (entriesS4 ps) ++ stripQuotes ['}']) := by
      have h1 : ('{' :: (entriesS4 ps ++ ['}']) : List Char) =
          ['{'] ++ (entriesS4 ps ++ ['}']) := by simp
      rw [h1, stripQuotes_append, stripQuotes_append]
    rw [this, stripQuotes_entriesS4 ps h]
    rfl
  rw [s5]
  have s6 : restoreAt ('{' :: (entriesS4 (ps.map stripEntry) ++ ['}'])) =
      '{' :: (entriesList (ps.map stripEntry) ++ ['}']) := by
    have h1 : ('{' :: (entriesS4 (ps.map stripEntry) ++ ['}']) : List Char) =
        ['{'] ++ (entriesS4 (ps.map stripEntry) ++ ['}']) := by simp
    rw [h1, restoreAt_append, restoreAt_append]
    rw [restoreAt_entriesS4 _ (entryOK_strip_facts h)]
    rfl
  rw [s6]
  simp

/-! ## `json.loads` accepts the expected format -/

theorem pStr_accepts {u rest : List Char}
    (h : u.all (fun c => !(c = '"') && !(c = '\\') && 32 ≤ c.toNat) = true) :
    pStr (u ++ '"' :: rest) = some (String.mk u, rest) := by
  induction u with
  | nil =>
    rw [List.nil_append, pStr.eq_def]
    rfl
  | cons c cs ih =>
    have hc := List.all_eq_true.1 h c (by simp)
    simp only [Bool.and_eq_true, Bool.not_eq_true', decide_eq_false_iff_not,
      decide_eq_true_eq] at hc
    obtain ⟨⟨h1, h2⟩, h3⟩ := hc
    have hcs : cs.all (fun c => !(c = '"') && !(c = '\\') && 32 ≤ c.toNat) = true := by
      apply List.all_eq_true.2
      intro x hx
      exact List.all_eq_true.1 h x (by simp [hx])
    rw [List.cons_append, pStr.eq_def]
    simp only [if_neg h1, if_neg h2, if_neg (show ¬c.toNat < 32 by omega)]
    rw [ih hcs]
    rfl

theorem skipWs_colon {l : List Char} : skipWs (':' :: l) = ':' :: l := rfl
theorem skipWs_comma {l : List Char} : skipWs (',' :: l) = ',' :: l := rfl
theorem skipWs_quote {l : List Char} : skipWs ('"' :: l) = '"' :: l := rfl
theorem skipWs_rbrace {l : List Char} : skipWs ('}' :: l) = '}' :: l := rfl
theorem skipWs_nl {l : List Char} : skipWs ('\n' :: l) = skipWs l := rfl
theorem skipWs_space {l : List Char} : skipWs (' ' :: l) = skipWs l := rfl

/-- A string value enclosed in quotes parses to a `Json.str`. -/
theorem pVal_str {n : Nat} {u rest : List Char}
    (h : u.all (fun c => !(c = '"') && !(c = '\\') && 32 ≤ c.toNat) = true) :
    pVal (n + 1) ('"' :: (u ++ '"' :: rest)) =
      some (Json.str (String.mk u), rest) := by
  have h1 : pVal (n + 1) ('"' :: (u ++ '"' :: rest)) =
      (pStr (u ++ '"' :: rest)).map (fun p => (Json.str p.1, p.2)) := rfl
  rw [h1, pStr_accepts h]
  rfl

/-- A digit character is a safe string-body character for `pStr`. -/
theorem digits_safe {k : List Char} (h : k.all Char.isDigit = true) :
    k.all (fun c => !(c = '"') && !(c = '\\') && 32 ≤ c.toNat) = true := by
  apply List.all_eq_true.2
  intro c hc
  have hd := List.all_eq_true.1 h c hc
  unfold Char.isDigit at hd
  rw [Bool.and_eq_true, decide_eq_true_eq, decide_eq_true_eq] at hd
  obtain ⟨h1, h2⟩ := hd
  rw [ge_iff_le, UInt32.le_def, BitVec.le_def] at h1
  rw [UInt32.le_def, BitVec.le_def] at h2
  have h48 : ((48 : UInt32)).toBitVec.toNat = 48 := rfl
  have h57 : ((57 : UInt32)).toBitVec.toNat = 57 := rfl
  have hct : c.toNat = c.val.toBitVec.toNat := rfl
  have hlo : 48 ≤ c.toNat := by omega
  have hhi : c.toNat ≤ 57 := by omega
  have hq : ¬ c = '"' := fun he => by rw [he] at hlo; exact absurd hlo (by decide)
  have hb : ¬ c = '\\' := fun he => by rw [he] at hhi; exact absurd hhi (by decide)
  simp [hq, hb]
  omega

theorem keyOK_safe {k : List Char} (h : keyOK k = true) :
    k.all (fun c => !(c = '"') && !(c = '\\') && 32 ≤ c.toNat) = true := by
  unfold keyOK at h
  rw [Bool.and_eq_true] at h
  exact digits_safe h.2

theorem strOK_safe {v : List Char} (h : strOK v = true) :
    v.all (fun c => !(c = '"') && !(c = '\\') && 32 ≤ c.toNat) = true := by
  unfold strOK valCharsOK at h
  rw [Bool.and_eq_true] at h
  obtain ⟨h1, h2⟩ := h
  apply List.all_eq_true.2
  intro c hc
  have hc1 := List.all_eq_true.1 h1 c hc
  have hc2 := List.all_eq_true.1 h2 c hc
  simp only [Bool.and_eq_true] at hc1 ⊢
  exact ⟨⟨hc2, hc1.1.2⟩, hc1.2⟩

theorem valOK_strip_safe {v : List Char} (h : valOK v = true) :
    (stripQuotes v).all (fun c => !(c = '"') && !(c = '\\') && 32 ≤ c.toNat) = true := by
  unfold valOK valCharsOK at h
  rw [Bool.and_eq_true] at h
  apply List.all_eq_true.2
  intro c hc
  unfold stripQuotes at hc
  rw [List.mem_filter] at hc
  have hc1 := List.all_eq_true.1 h.1 c hc.1
  simp only [Bool.and_eq_true] at hc1 ⊢
  exact ⟨⟨hc.2, hc1.1.2⟩, hc1.2⟩

/-- `pMembers` accepts the members of one `{"text":…,\n"meaning":…}` object. -/
theorem pMembers_entryT {n : Nat} (acc : List (String × Json)) {v m rest : List Char}
    (hv : v.all (fun c => !(c = '"') && !(c = '\\') && 32 ≤ c.toNat) = true)
    (hm : m.all (fun c => !(c = '"') && !(c = '\\') && 32 ≤ c.toNat) = true) :
    pMembers (n + 3) acc
      ('"' :: (textWord ++ '"' :: ':' :: '"' :: (v ++ '"' :: ',' :: '\n' ::
        '"' :: (meaningWord ++ '"' :: ':' :: '"' :: (m ++ '"' :: '}' :: rest))))) =
      some (Json.obj (objIns (objIns acc (String.mk textWord)
          (Json.str (String.mk v)))
        (String.mk meaningWord) (Json.str (String.mk m))), rest) := by
  have hval1 : pVal (n + 2) ('"' :: (v ++ '"' :: ',' :: '\n' ::
      '"' :: (meaningWord ++ '"' :: ':' :: '"' :: (m ++ '"' :: '}' :: rest)))) =
      some (Json.str (String.mk v), ',' :: '\n' ::
        '"' :: (meaningWord ++ '"' :: ':' :: '"' :: (m ++ '"' :: '}' :: rest))) :=
    pVal_str hv
  have hval2 : pVal (n + 1) ('"' :: (m ++ '"' :: '}' :: rest)) =
      some (Json.str (String.mk m), '}' :: rest) := pVal_str hm
  rw [pMembers.eq_def]
  simp only []
  rw [pStr_accepts (by decide)]
  simp only [skipWs_colon, skipWs_quote, hval1, skipWs_comma, skipWs_nl]
  rw [pMembers.eq_def]
  simp only []
  rw [pStr_accepts (by decide)]
  simp only [skipWs_colon, skipWs_quote, hval2, skipWs_rbrace]

/-- `pVal` accepts one `{"text":…,\n"meaning":…}` object. -/
theorem pVal_entryObj {n : Nat} {v m rest : List Char}
    (hv : v.all (fun c => !(c = '"') && !(c = '\\') && 32 ≤ c.toNat) = true)
    (hm : m.all (fun c => !(c = '"') && !(c = '\\') && 32 ≤ c.toNat) = true) :
    pVal (n + 4) ('{' :: '"' :: (textWord ++ '"' :: ':' :: '"' :: (v ++ '"' :: ',' :: '\n' ::
      '"' :: (meaningWord ++ '"' :: ':' :: '"' :: (m ++ '"' :: '}' :: rest))))) =
      some (Json.obj [(String.mk textWord, Json.str (String.mk v)),
        (String.mk meaningWord, Json.str (String.mk m))], rest) := by
  have h1 : pVal (n + 4) ('{' :: '"' :: (textWord ++ '"' :: ':' :: '"' :: (v ++ '"' :: ',' :: '\n' ::
      '"' :: (meaningWord ++ '"' :: ':' :: '"' :: (m ++ '"' :: '}' :: rest))))) =
      pMembers (n + 3) [] ('"' :: (textWord ++ '"' :: ':' :: '"' :: (v ++ '"' :: ',' :: '\n' ::
        '"' :: (meaningWord ++ '"' :: ':' :: '"' :: (m ++ '"' :: '}' :: rest))))) := rfl
  rw [h1, pMembers_entryT [] hv hm]
  rfl

theorem skipWs_lbrace {l : List Char} : skipWs ('{' :: l) = '{' :: l := rfl

theorem mkEntry_assoc (k v m tail : List Char) :
    mkEntry k v m ++ tail =
      '"' :: (k ++ '"' :: ':' :: ' ' :: '{' ::
        '"' :: (textWord ++ '"' :: ':' :: '"' :: (v ++ '"' :: ',' :: '\n' ::
          '"' :: (meaningWord ++ '"' :: ':' :: '"' :: (m ++ '"' :: '}' :: tail))))) := by
  simp [mkEntry]

theorem entries_cons_quote (p : List Char × List Char × List Char)
    (ps : List (List Char × List Char × List Char)) (l : List Char) :
    skipWs (entriesList (p :: ps) ++ l) = entriesList (p :: ps) ++ l := by
  obtain ⟨k, v, m⟩ := p
  cases ps with
  | nil => rfl
  | cons q qs => rfl

theorem pMembers_entries (ps : List (List Char × List Char × List Char)) :
    ∀ (n : Nat) (acc : List (String × Json)),
      (∀ p ∈ ps, keyOK p.1 = true ∧
        p.2.1.all (fun c => !(c = '"') && !(c = '\\') && 32 ≤ c.toNat) = true ∧
        p.2.2.all (fun c => !(c = '"') && !(c = '\\') && 32 ≤ c.toNat) = true) →
      ps ≠ [] → ps.length + 4 ≤ n →
      ∃ ms, pMembers n acc (entriesList ps ++ ['}']) = some (Json.obj ms, []) := by
  induction ps with
  | nil => intro n acc _ hne _; exact absurd rfl hne
  | cons p ps' ih =>
    obtain ⟨k, v, m⟩ := p
    intro n acc h _ hn
    obtain ⟨hk, hv, hm⟩ := h (k, v, m) (by simp)
    have hksafe := keyOK_safe hk
    obtain ⟨n2, rfl⟩ : ∃ n2, n = n2 + 5 := ⟨n - 5, by simp at hn; omega⟩
    cases ps' with
    | nil =>
      have hshape : entriesList [(k, v, m)] ++ ['}'] =
          '"' :: (k ++ '"' :: ':' :: ' ' :: '{' ::
            '"' :: (textWord ++ '"' :: ':' :: '"' :: (v ++ '"' :: ',' :: '\n' ::
              '"' :: (meaningWord ++ '"' :: ':' :: '"' ::
                (m ++ '"' :: '}' :: ['}']))))) := mkEntry_assoc k v m ['}']
      rw [hshape]
      have hobj : pVal (n2 + 4) ('{' ::
          '"' :: (textWord ++ '"' :: ':' :: '"' :: (v ++ '"' :: ',' :: '\n' ::
            '"' :: (meaningWord ++ '"' :: ':' :: '"' :: (m ++ '"' :: '}' :: ['}']))))) =
          some (Json.obj [(String.mk textWord, Json.str (String.mk v)),
            (String.mk meaningWord, Json.str (String.mk m))], ['}']) :=
        pVal_entryObj hv hm
      rw [pMembers.eq_def]
      simp only []
      rw [pStr_accepts hksafe]
      simp only [skipWs_colon, skipWs_space, skipWs_lbrace, hobj, skipWs_rbrace]
      exact ⟨_, rfl⟩
    | cons q qs =>
      have hshape : entriesList ((k, v, m) :: q :: qs) ++ ['}'] =
          '"' :: (k ++ '"' :: ':' :: ' ' :: '{' ::
            '"' :: (textWord ++ '"' :: ':' :: '"' :: (v ++ '"' :: ',' :: '\n' ::
              '"' :: (meaningWord ++ '"' :: ':' :: '"' ::
                (m ++ '"' :: '}' :: ',' :: '\n' :: (entriesList (q :: qs) ++ ['}'])))))) := by
        have h0 : entriesList ((k, v, m) :: q :: qs) ++ ['}'] =
            mkEntry k v m ++ (',' :: '\n' :: (entriesList (q :: qs) ++ ['}'])) := by
          simp [entriesList]
        rw [h0, mkEntry_assoc]
      rw [hshape]
      have hobj : pVal (n2 + 4) ('{' ::
          '"' :: (textWord ++ '"' :: ':' :: '"' :: (v ++ '"' :: ',' :: '\n' ::
            '"' :: (meaningWord ++ '"' :: ':' :: '"' ::
              (m ++ '"' :: '}' :: ',' :: '\n' :: (entriesList (q :: qs) ++ ['}'])))))) =
          some (Json.obj [(String.mk textWord, Json.str (String.mk v)),
            (String.mk meaningWord, Json.str (String.mk m))],
            ',' :: '\n' :: (entriesList (q :: qs) ++ ['}'])) :=
        pVal_entryObj hv hm
      rw [pMembers.eq_def]
      simp only []
      rw [pStr_accepts hksafe]
      simp only [skipWs_colon, skipWs_space, skipWs_lbrace, hobj, skipWs_comma,
        skipWs_nl, entries_cons_quote]
      exact ih (n2 + 4) _ (fun p hp => h p (by simp [hp])) (by simp)
        (by simp at hn ⊢; omega)

theorem entries_shape (p : List Char × List Char × List Char)
    (ps : List (List Char × List Char × List Char)) (l : List Char) :
    ∃ t, entriesList (p :: ps) ++ l = '"' :: t := by
  obtain ⟨k, v, m⟩ := p
  cases ps with
  | nil => exact ⟨_, mkEntry_assoc k v m l⟩
  | cons q qs =>
    have h0 : entriesList ((k, v, m) :: q :: qs) ++ l =
        mkEntry k v m ++ (',' :: '\n' :: (entriesList (q :: qs) ++ l)) := by
      simp [entriesList]
    rw [h0, mkEntry_assoc]
    exact ⟨_, rfl⟩

theorem entriesList_length (p : List Char × List Char × List Char)
    (ps : List (List Char × List Char × List Char)) :
    (p :: ps).length + 2 ≤ (entriesList (p :: ps)).length := by
  induction ps generalizing p with
  | nil =>
    obtain ⟨k, v, m⟩ := p
    simp [entriesList, mkEntry]
    omega
  | cons q qs ih =>
    obtain ⟨k, v, m⟩ := p
    have h0 : entriesList ((k, v, m) :: q :: qs) =
        mkEntry k v m ++ (',' :: '\n' :: entriesList (q :: qs)) := by
      simp [entriesList]
    have hq := ih q
    rw [h0]
    simp [mkEntry] at hq ⊢
    omega

theorem jsonParse_mkJson (ps : List (List Char × List Char × List Char))
    (h : ∀ p ∈ ps, keyOK p.1 = true ∧
      p.2.1.all (fun c => !(c = '"') && !(c = '\\') && 32 ≤ c.toNat) = true ∧
      p.2.2.all (fun c => !(c = '"') && !(c = '\\') && 32 ≤ c.toNat) = true) :
    (jsonParse (String.mk (mkJsonL ps))).isSome = true := by
  cases ps with
  | nil => decide
  | cons p ps' =>
    obtain ⟨t, ht⟩ := entries_shape p ps' ['}']
    have hdata : (String.mk (mkJsonL (p :: ps'))).data =
        '{' :: (entriesList (p :: ps') ++ ['}']) := by
      simp [mkJsonL]
    have hlen0 := entriesList_length p ps'
    obtain ⟨ms, hms⟩ := pMembers_entries (p :: ps')
      (('{' :: (entriesList (p :: ps') ++ ['}'])).length) [] h (by simp)
      (by simp; simp at hlen0; omega)
    unfold jsonParse
    rw [hdata]
    have hskip : skipWs ('{' :: (entriesList (p :: ps') ++ ['}'])) =
        '{' :: (entriesList (p :: ps') ++ ['}']) := rfl
    rw [hskip]
    rw [ht] at hms ⊢
    have h1 : pVal (('{' :: ('"' :: t)).length + 1) ('{' :: ('"' :: t)) =
        pMembers (('{' :: ('"' :: t)).length) [] ('"' :: t) := rfl
    show (match pVal (('{' :: ('"' :: t)).length + 1) ('{' :: ('"' :: t)) with
      | some (j, r) => if skipWs r = [] then some j else none
      | none => none).isSome = true
    rw [h1, hms]
    rfl

/-! ## Sentinel accounting for the `@` character -/

theorem pyWs_not_at {c : Char} (h : isPyWs c = true) : ¬c = '@' := by
  intro he
  subst he
  exact absurd h (by decide)

theorem count_at_of_all_pyWs {ws : List Char} (h : ws.all isPyWs = true) :
    ws.count '@' = 0 := by
  rw [List.count_eq_zero]
  intro hmem
  exact pyWs_not_at (List.all_eq_true.1 h '@' hmem) rfl

theorem count_at_of_all_digit {ds : List Char} (h : ds.all Char.isDigit = true) :
    ds.count '@' = 0 := by
  rw [List.count_eq_zero]
  intro hmem
  have := List.all_eq_true.1 h '@' hmem
  exact absurd this (by decide)

theorem match1_count {l rep rest : List Char} (h : match1 l = some (rep, rest)) :
    l.count '@' ≤ rep.count '@' + rest.count '@' := by
  obtain ⟨w, ws, hw, hl, hws, hrep⟩ := match1_shape h
  subst hl hrep
  have hwc : w.count '@' = 0 := by
    cases hw with
    | inl h => subst h; decide
    | inr h => subst h; decide
  simp [List.count_append, List.count_cons, hwc, count_at_of_all_pyWs hws]

theorem match2_count {l rep rest : List Char} (h : match2 l = some (rep, rest)) :
    l.count '@' ≤ rep.count '@' + rest.count '@' := by
  obtain ⟨ds, _, hds, hl, hrep⟩ := match2_shape h
  subst hl hrep
  simp [List.count_append, List.count_cons, count_at_of_all_digit hds]

theorem match3_count {l rep rest : List Char} (h : match3 l = some (rep, rest)) :
    l.count '@' ≤ rep.count '@' + rest.count '@' := by
  obtain ⟨w, mid, hw, _, hl, hrep⟩ := match3_shape h
  subst hl hrep
  have hwc : w.count '@' = 0 := by
    cases hw with
    | inl h => subst h; decide
    | inr h => subst h; decide
  simp [List.count_append, List.count_cons, hwc]
  omega

theorem match4_count {l rep rest : List Char} (h : match4 l = some (rep, rest)) :
    l.count '@' ≤ rep.count '@' + rest.count '@' := by
  obtain ⟨g, hg, hl, hrep⟩ := match4_shape h
  subst hl hrep
  simp [List.count_append, List.count_cons]

theorem runSub_count (m : List Char → Option (List Char × List Char))
    (hm : ∀ {l rep rest : List Char}, m l = some (rep, rest) → rest.length < l.length)
    (hc : ∀ {l rep rest : List Char}, m l = some (rep, rest) →
      l.count '@' ≤ rep.count '@' + rest.count '@') :
    ∀ (n : Nat) (l : List Char), l.length ≤ n →
      l.count '@' ≤ (runSub m n l).count '@' := by
  intro n
  induction n with
  | zero =>
    intro l hl
    have : l = [] := List.length_eq_zero.1 (Nat.le_zero.1 hl)
    subst this
    simp [runSub]
  | succ n ih =>
    intro l hl
    cases l with
    | nil => simp [runSub]
    | cons c cs =>
      simp only [runSub]
      cases hM : m (c :: cs) with
      | some p =>
        obtain ⟨rep, rest⟩ := p
        have hlt := hm hM
        simp only [List.length_cons] at hl hlt
        show (c :: cs).count '@' ≤ (rep ++ runSub m n rest).count '@'
        have h1 := ih rest (by omega)
        have h2 := hc hM
        simp only [List.count_append]
        omega
      | none =>
        simp only [List.length_cons] at hl
        show (c :: cs).count '@' ≤ (c :: runSub m n cs).count '@'
        have h1 := ih cs (by omega)
        by_cases hca : c = '@' <;>
          simp [List.count_cons, hca] <;> omega

theorem stripQuotes_count_at (l : List Char) :
    (stripQuotes l).count '@' = l.count '@' := by
  induction l with
  | nil => rfl
  | cons c cs ih =>
    by_cases hc : c = '"'
    · subst hc
      simp only [stripQuotes, List.filter_cons] at ih ⊢
      rw [if_neg (by decide)]
      rw [ih, List.count_cons]
      simp
    · by_cases ha : c = '@'
      · subst ha
        simp only [stripQuotes, List.filter_cons] at ih ⊢
        rw [if_pos (by decide), List.count_cons, List.count_cons, ih]
      · simp only [stripQuotes, List.filter_cons] at ih ⊢
        rw [if_pos (by simp [hc]), List.count_cons, List.count_cons, ih]

theorem restoreAt_no_at (l : List Char) : (restoreAt l).count '@' = 0 := by
  rw [List.count_eq_zero]
  intro hmem
  unfold restoreAt at hmem
  rw [List.mem_map] at hmem
  obtain ⟨c, _, hc⟩ := hmem
  by_cases h : c = '@'
  · rw [if_pos h] at hc; exact absurd hc (by decide)
  · rw [if_neg h] at hc; exact h hc

theorem restoreAt_count_quote (l : List Char) :
    (restoreAt l).count '"' = l.count '@' + l.count '"' := by
  induction l with
  | nil => rfl
  | cons c cs ih =>
    simp only [restoreAt, List.map_cons] at ih ⊢
    by_cases ha : c = '@'
    · subst ha
      rw [if_pos rfl, List.count_cons, List.count_cons, List.count_cons, ih]
      simp
      omega
    · rw [if_neg ha, List.count_cons, List.count_cons, List.count_cons, ih]
      by_cases hq : c = '"' <;> simp [ha, hq] <;> omega

theorem clean_quotes_list_count (l : List Char) :
    (clean_quotes_list l).count '@' = 0 ∧
      l.count '@' ≤ (clean_quotes_list l).count '"' := by
  have h1 : l.count '@' ≤ (sub1 l).count '@' :=
    runSub_count match1 match1_consumes match1_count l.length l le_rfl
  have h2 : (sub1 l).count '@' ≤ (sub2 (sub1 l)).count '@' :=
    runSub_count match2 match2_consumes match2_count (sub1 l).length (sub1 l) le_rfl
  have h3 : (sub2 (sub1 l)).count '@' ≤ (sub3 (sub2 (sub1 l))).count '@' :=
    runSub_count match3 match3_consumes match3_count
      (sub2 (sub1 l)).length (sub2 (sub1 l)) le_rfl
  have h4 : (sub3 (sub2 (sub1 l))).count '@' ≤ (sub4 (sub3 (sub2 (sub1 l)))).count '@' :=
    runSub_count match4 match4_consumes match4_count
      (sub3 (sub2 (sub1 l))).length (sub3 (sub2 (sub1 l))) le_rfl
  have hs := stripQuotes_count_at (sub4 (sub3 (sub2 (sub1 l))))
  have hr := restoreAt_count_quote (stripQuotes (sub4 (sub3 (sub2 (sub1 l)))))
  have hn := restoreAt_no_at (stripQuotes (sub4 (sub3 (sub2 (sub1 l)))))
  constructor
  · exact hn
  · unfold clean_quotes_list
    rw [hr]
    omega

/-! ## Quote-free values: the sanitizer acts as the identity -/

theorem quoteFollowOK_of_no_quote {v : List Char}
    (h : v.all (fun c => !(c = '"')) = true) : quoteFollowOK v = true := by
  induction v with
  | nil => rfl
  | cons c cs ih =>
    have hc := List.all_eq_true.1 h c (by simp)
    simp only [Bool.not_eq_true', decide_eq_false_iff_not] at hc
    have hcs : cs.all (fun c => !(c = '"')) = true := by
      apply List.all_eq_true.2
      intro x hx
      exact List.all_eq_true.1 h x (by simp [hx])
    cases cs with
    | nil =>
      have heq : quoteFollowOK [c] = ((if c = '"' then true else true) && true) := rfl
      rw [heq]
      simp
    | cons c2 cs2 =>
      have heq : quoteFollowOK (c :: c2 :: cs2) =
          ((if c = '"' then !(c2 = 't') && !(c2 = 'm') && !(c2 = '}') && !c2.isDigit
            else true) && quoteFollowOK (c2 :: cs2)) := rfl
      rw [heq, if_neg hc, ih hcs, Bool.true_and]

theorem strOK_valOK {v : List Char} (h : strOK v = true) : valOK v = true := by
  unfold strOK at h
  rw [Bool.and_eq_true] at h
  unfold valOK
  rw [Bool.and_eq_true]
  exact ⟨h.1, quoteFollowOK_of_no_quote h.2⟩

theorem stripQuotes_of_no_quote {v : List Char}
    (h : v.all (fun c => !(c = '"')) = true) : stripQuotes v = v := by
  unfold stripQuotes
  apply List.filter_eq_self.2
  intro c hc
  exact List.all_eq_true.1 h c hc

theorem entryStrOK_entryOK {p : List Char × List Char × List Char}
    (h : entryStrOK p = true) : entryOK p = true := by
  unfold entryStrOK at h
  unfold entryOK
  rw [Bool.and_eq_true, Bool.and_eq_true] at h ⊢
  exact ⟨⟨h.1.1, strOK_valOK h.1.2⟩, strOK_valOK h.2⟩

theorem stripEntry_of_strOK {p : List Char × List Char × List Char}
    (h : entryStrOK p = true) : stripEntry p = p := by
  unfold entryStrOK at h
  rw [Bool.and_eq_true, Bool.and_eq_true] at h
  obtain ⟨⟨_, hv⟩, hm⟩ := h
  unfold strOK at hv hm
  rw [Bool.and_eq_true] at hv hm
  unfold stripEntry
  rw [stripQuotes_of_no_quote hv.2, stripQuotes_of_no_quote hm.2]

/-- The hypotheses `jsonParse_mkJson` needs, from `entryStrOK`. -/
theorem entryStrOK_parse_facts {ps : List (List Char × List Char × List Char)}
    (h : ∀ p ∈ ps, entryStrOK p = true) :
    ∀ p ∈ ps, keyOK p.1 = true ∧
      p.2.1.all (fun c => !(c = '"') && !(c = '\\') && 32 ≤ c.toNat) = true ∧
      p.2.2.all (fun c => !(c = '"') && !(c = '\\') && 32 ≤ c.toNat) = true := by
  intro p hp
  have := h p hp
  unfold entryStrOK at this
  rw [Bool.and_eq_true, Bool.and_eq_true] at this
  exact ⟨this.1.1, strOK_safe this.1.2, strOK_safe this.2⟩

/-- The hypotheses `jsonParse_mkJson` needs, for the stripped entries. -/
theorem entryOK_parse_facts {ps : List (List Char × List Char × List Char)}
    (h : ∀ p ∈ ps, entryOK p = true) :
    ∀ p ∈ ps.map stripEntry, keyOK p.1 = true ∧
      p.2.1.all (fun c => !(c = '"') && !(c = '\\') && 32 ≤ c.toNat) = true ∧
      p.2.2.all (fun c => !(c = '"') && !(c = '\\') && 32 ≤ c.toNat) = true := by
  intro p hp
  rw [List.mem_map] at hp
  obtain ⟨q, hq, rfl⟩ := hp
  have hqok := h q hq
  unfold entryOK at hqok
  rw [Bool.and_eq_true, Bool.and_eq_true] at hqok
  exact ⟨hqok.1.1, valOK_strip_safe hqok.1.2, valOK_strip_safe hqok.2⟩

/-- A valid `/analyze_lyrics` request reaches the provider call and degrades to
the raw/json formats according to the parse of `analyze_with_ai`'s result. -/
theorem analyze_lyrics_valid (ms : List (String × Json)) (s : String)
    (outcome : CompletionOutcome)
    (hl : List.lookup "lyrics" ms = some (Json.str s)) (hne : ¬s = "")
    (hlen : s.length ≤ 10000) :
    analyze_lyrics (some (Json.obj ms)) outcome =
      (match jsonParse (analyze_with_ai outcome) with
       | some parsed =>
         ((200, Json.obj [("analysis", parsed), ("format", Json.str "json")]), true)
       | none =>
         ((200, Json.obj [("analysis", Json.str (analyze_with_ai outcome)),
           ("format", Json.str "raw")]), true)) := by
  have hf : pyFalsy (Json.str s) = false := by
    simp only [pyFalsy]
    exact beq_eq_false_iff_ne.2 hne
  have hlen' : pyLen (Json.str s) = some s.length := rfl
  simp only [analyze_lyrics, hl, hf, hlen']
  rw [if_neg (by simp), if_neg (by omega)]

theorem analyze_with_ai_invalid {text : String}
    (h : jsonParse (clean_quotes text) = none) :
    analyze_with_ai (.ok text) = aiInvalidJsonMsg := by
  simp only [analyze_with_ai, h]

theorem analyze_with_ai_err (msg : String) :
    analyze_with_ai (.err msg) = "An error occurred with Anthropic API: " ++ msg := rfl

theorem jsonParse_aiInvalidJsonMsg : jsonParse aiInvalidJsonMsg = none := rfl

/-- A string starting with a letter `A` never parses as JSON. -/
theorem jsonParse_headA (msg : String) :
    jsonParse ("An error occurred with Anthropic API: " ++ msg) = none := rfl

theorem lyrics10k_len : lyrics10k.length = 10000 := by
  show (List.replicate 10000 'a').length = 10000
  rw [List.length_replicate]

theorem lyrics10k_ne : ¬lyrics10k = "" := by
  intro he
  have := congrArg String.length he
  rw [lyrics10k_len] at this
  exact absurd this (by decide)

theorem lyrics10001_len : lyrics10001.length = 10001 := by
  show (List.replicate 10001 'a').length = 10001
  rw [List.length_replicate]

/-! ## The claims -/

/-- C1 (corrected): when the completion provider's text still fails JSON
parsing after sanitization, `/analyze_lyrics` responds HTTP 200 with format
`raw`, but the `analysis` field carries the fixed substitute message of
`analyze_with_ai`, not the sanitized text. -/
theorem c1_invalid_json_raw (ms : List (String × Json)) (s text : String)
    (hl : List.lookup "lyrics" ms = some (Json.str s)) (hne : ¬s = "")
    (hlen : s.length ≤ 10000) (hbad : jsonParse (clean_quotes text) = none) :
    analyze_lyrics (some (Json.obj ms)) (.ok text) =
      ((200, Json.obj [("analysis", Json.str aiInvalidJsonMsg),
        ("format", Json.str "raw")]), true) := by
  rw [analyze_lyrics_valid ms s _ hl hne hlen, analyze_with_ai_invalid hbad,
    jsonParse_aiInvalidJsonMsg]

/-- C1, counterexample to the claimed `analysis` value: on lyrics `la` with
completion text `hello` (unparseable after sanitization), the response carries
the substitute message, which differs from the sanitized text
`clean_quotes "hello" = "hello"`. -/
theorem c1_counterexample :
    analyze_lyrics (some (Json.obj [("lyrics", Json.str "la")])) (.ok "hello") =
      ((200, Json.obj [("analysis", Json.str aiInvalidJsonMsg),
        ("format", Json.str "raw")]), true) ∧
    ¬(aiInvalidJsonMsg = clean_quotes "hello") := by
  constructor
  · rfl
  · decide

/-- C1, witness: the theorem's hypotheses hold at lyrics `la`, text `hello`. -/
theorem c1_witness :
    analyze_lyrics (some (Json.obj [("lyrics", Json.str "la")])) (.ok "hello") =
      ((200, Json.obj [("analysis", Json.str aiInvalidJsonMsg),
        ("format", Json.str "raw")]), true) :=
  c1_invalid_json_raw [("lyrics", Json.str "la")] "la" "hello" rfl (by decide)
    (by decide) rfl

/-- C2 (corrected): when the completion call raises, `analyze_with_ai` catches
the exception and returns the `An error occurred with Anthropic API: …` string;
the handler fails to parse it as JSON and responds HTTP 200 with format `raw`
and that string as `analysis` — not HTTP 500. -/
theorem c2_provider_error_raw (ms : List (String × Json)) (s msg : String)
    (hl : List.lookup "lyrics" ms = some (Json.str s)) (hne : ¬s = "")
    (hlen : s.length ≤ 10000) :
    analyze_lyrics (some (Json.obj ms)) (.err msg) =
      ((200, Json.obj [("analysis",
        Json.str ("An error occurred with Anthropic API: " ++ msg)),
        ("format", Json.str "raw")]), true) := by
  rw [analyze_lyrics_valid ms s _ hl hne hlen, analyze_with_ai_err,
    jsonParse_headA]

/-- C2, counterexample to the claimed 500 status: a failing provider call on a
valid request yields status 200, not 500. -/
theorem c2_counterexample :
    ¬((analyze_lyrics (some (Json.obj [("lyrics", Json.str "la")]))
        (.err "boom")).1.1 = 500) ∧
    (analyze_lyrics (some (Json.obj [("lyrics", Json.str "la")]))
      (.err "boom")).1.1 = 200 := by
  constructor
  · decide
  · decide

/-- C2, witness: the theorem's hypotheses hold at lyrics `la`, error `boom`. -/
theorem c2_witness :
    analyze_lyrics (some (Json.obj [("lyrics", Json.str "la")])) (.err "boom") =
      ((200, Json.obj [("analysis",
        Json.str ("An error occurred with Anthropic API: " ++ "boom")),
        ("format", Json.str "raw")]), true) :=
  c2_provider_error_raw [("lyrics", Json.str "la")] "la" "boom" rfl (by decide)
    (by decide)

/-- C3 (corrected): `clean_quotes` is the identity (and its input is valid
JSON) on strings of the expected analysis shape with quote-free value bodies;
it is not the identity on arbitrary stray-quote-free valid JSON. -/
theorem c3_expected_identity (ps : List (List Char × List Char × List Char))
    (h : ∀ p ∈ ps, entryStrOK p = true) :
    (jsonParse (String.mk (mkJsonL ps))).isSome = true ∧
    clean_quotes (String.mk (mkJsonL ps)) = String.mk (mkJsonL ps) := by
  constructor
  · exact jsonParse_mkJson ps (entryStrOK_parse_facts h)
  · unfold clean_quotes
    have hd : (String.mk (mkJsonL ps)).data = mkJsonL ps := rfl
    rw [hd, clean_quotes_mkJson ps (fun p hp => entryStrOK_entryOK (h p hp))]
    rw [List.map_congr_left (fun p hp => stripEntry_of_strOK (h p hp))]
    simp

/-- C3, counterexample to identity on arbitrary valid JSON: `{"a": "b"}` is
valid JSON with no stray quotes, yet `clean_quotes` alters it (to `{a: b"}`). -/
theorem c3_counterexample :
    (jsonParse c3input).isSome = true ∧ ¬(clean_quotes c3input = c3input) := by
  constructor
  · decide
  · decide

/-- C3, witness: the expected-shape string `{"1": {"text":"a",\n"meaning":"b"}}`. -/
theorem c3_witness :
    (jsonParse (String.mk (mkJsonL [(['1'], ['a'], ['b'])]))).isSome = true ∧
    clean_quotes (String.mk (mkJsonL [(['1'], ['a'], ['b'])])) =
      String.mk (mkJsonL [(['1'], ['a'], ['b'])]) :=
  c3_expected_identity [(['1'], ['a'], ['b'])] (by decide)

/-- C4 (corrected): on the spec's example rewritten in the shape the sanitizer
handles (newline after the separating comma, no space after the
`"text":`/`"meaning":` colons), `clean_quotes` removes the inner quotes around
`hi` and the result parses; on the spec's exact single-line example it does
not produce the claimed output (see the counterexample). -/
theorem c4_example_newline :
    clean_quotes c4inputNl = c4outNl ∧ (jsonParse c4outNl).isSome = true := by
  constructor
  · decide
  · decide

/-- C4, counterexample on the spec's exact single-line example input: the
output differs from the claimed one (the quote closing the `text` value is
followed by `, ` rather than `,\n`, so it is stripped), and the actual output
does not even parse as JSON. -/
theorem c4_counterexample :
    ¬(clean_quotes c4input = c4claimOut) ∧
    (jsonParse (clean_quotes c4input)).isSome = false := by
  constructor
  · decide
  · decide

/-- C5 (corrected): the output of `clean_quotes` parses as JSON not for every
input containing well-formed `"text": "…"`/`"meaning": "…"` sequences, but for
inputs of exactly the expected analysis shape whose embedded quotes are
followed by a character other than `t`, `m`, `}` or a digit. -/
theorem c5_expected_parses (ps : List (List Char × List Char × List Char))
    (h : ∀ p ∈ ps, entryOK p = true) :
    (jsonParse (clean_quotes (String.mk (mkJsonL ps)))).isSome = true := by
  unfold clean_quotes
  have hd : (String.mk (mkJsonL ps)).data = mkJsonL ps := rfl
  rw [hd, clean_quotes_mkJson ps h]
  exact jsonParse_mkJson _ (entryOK_parse_facts h)

/-- C5, counterexample to the universal claim: `c5input` contains a well-formed
`"text":"…"`/`"meaning":"…"` pair with embedded quotes in the text body, but
one stray character outside it makes the sanitized output unparseable. -/
theorem c5_counterexample :
    (jsonParse (clean_quotes c5input)).isSome = false := by
  decide

/-- C5, witness: an expected-shape input whose text body embeds `"yo"`. -/
theorem c5_witness :
    (jsonParse (clean_quotes (String.mk (mkJsonL [(['1'],
      ['H', 'i', ' ', '"', 'y', 'o', '"', ' ', '!'],
      ['g', 'r', 'e', 'e', 't'])])))).isSome = true :=
  c5_expected_parses [(['1'],
    ['H', 'i', ' ', '"', 'y', 'o', '"', ' ', '!'],
    ['g', 'r', 'e', 'e', 't'])] (by decide)

/-- C6 (confirmed): a successful transcript fetch responds 200 with exactly the
providers segments texts, in order, without timing metadata, and the provider
is called with the video id, the fixed language-preference list and
`preserve_formatting=True`. -/
theorem c6_transcript_success (v : String)
    (provider : String → List String → Bool → Except String (List TranscriptEntry))
    (ts : List TranscriptEntry) (hv : ¬v = "")
    (hp : provider v transcriptLanguages true = .ok ts) :
    get_transcript (some v) provider =
      ((200, Json.obj [("transcript",
        Json.arr (ts.map (fun e => Json.str e.text)))]),
       some (v, transcriptLanguages, true)) := by
  simp only [get_transcript]
  rw [if_neg hv, hp]

/-- C6, witness: a two-segment provider response for video id `abc`. -/
theorem c6_witness :
    get_transcript (some "abc")
      (fun _ _ _ => .ok [⟨"hello", 0, 2⟩, ⟨"world", 2, 3⟩]) =
      ((200, Json.obj [("transcript",
        Json.arr [Json.str "hello", Json.str "world"])]),
       some ("abc", transcriptLanguages, true)) :=
  c6_transcript_success "abc" (fun _ _ _ => .ok [⟨"hello", 0, 2⟩, ⟨"world", 2, 3⟩])
    [⟨"hello", 0, 2⟩, ⟨"world", 2, 3⟩] (by decide) rfl

/-- C7 (confirmed): with no `video_id` query parameter, `/get_transcript`
responds 400 with an error body and the provider is never called. -/
theorem c7_missing_video_id
    (provider : String → List String → Bool → Except String (List TranscriptEntry)) :
    get_transcript none provider =
      ((400, errObj "No video ID provided"), none) := rfl

/-- C8 (corrected): a request whose Content-Type is not JSON, a JSON body
missing the `lyrics` field, and an oversized `lyrics` string each yield 400
without a provider call, and a string of exactly 10,000 characters is not
rejected (the provider is called); but a body that is not JSON while its
Content-Type is JSON passes `is_json`, makes `request.json` raise, and is
answered 500 by the blanket `except` — not 400. -/
theorem c8_input_validation (outcome : CompletionOutcome) (emsg : String)
    (ms : List (String × Json)) (s : String) :
    (analyze_lyrics_request .notJson outcome =
      ((400, errObj "Content-Type must be application/json"), false)) ∧
    (analyze_lyrics_request (.badJson emsg) outcome =
      ((500, errObj ("Analysis error: " ++ emsg)), false)) ∧
    (List.lookup "lyrics" ms = none →
      analyze_lyrics_request (.json (Json.obj ms)) outcome =
        ((400, errObj "No lyrics provided"), false)) ∧
    (List.lookup "lyrics" ms = some (Json.str s) → 10000 < s.length →
      analyze_lyrics_request (.json (Json.obj ms)) outcome =
        ((400, errObj "Lyrics exceed maximum length"), false)) ∧
    ((analyze_lyrics_request (.json (Json.obj [("lyrics", Json.str lyrics10k)]))
      outcome).2 = true) := by
  refine ⟨rfl, rfl, ?_, ?_, ?_⟩
  · intro h
    show analyze_lyrics (some (Json.obj ms)) outcome = _
    simp only [analyze_lyrics, h]
  · intro hl hgt
    have hne : ¬s = "" := by
      intro he
      subst he
      exact absurd hgt (by decide)
    have hf : pyFalsy (Json.str s) = false := by
      simp only [pyFalsy]
      exact beq_eq_false_iff_ne.2 hne
    have hlen' : pyLen (Json.str s) = some s.length := rfl
    show analyze_lyrics (some (Json.obj ms)) outcome = _
    simp only [analyze_lyrics, hl, hf, hlen']
    rw [if_neg (by simp), if_pos hgt]
  · show (analyze_lyrics (some (Json.obj [("lyrics", Json.str lyrics10k)]))
      outcome).2 = true
    rw [analyze_lyrics_valid [("lyrics", Json.str lyrics10k)] lyrics10k outcome
      rfl lyrics10k_ne (by rw [lyrics10k_len])]
    cases jsonParse (analyze_with_ai outcome) <;> rfl

/-- C8, counterexample to `body is not JSON → 400`: a request whose payload is
malformed but whose Content-Type is application/json is answered 500 with
`Analysis error: 400 Bad Request: …`, not 400, with no provider call. -/
theorem c8_counterexample :
    (analyze_lyrics_request (.badJson badRequestMsg) (.err "x")).1.1 = 500 ∧
    ¬((analyze_lyrics_request (.badJson badRequestMsg) (.err "x")).1.1 = 400) ∧
    (analyze_lyrics_request (.badJson badRequestMsg) (.err "x")).2 = false := by
  refine ⟨rfl, ?_, rfl⟩
  decide

/-- C8, witness: a JSON body without `lyrics` and a 10,001-character lyrics
string, each rejected with the corresponding message. -/
theorem c8_witness :
    (analyze_lyrics_request (.json (Json.obj [("genre", Json.str "pop")]))
      (.err "x") = ((400, errObj "No lyrics provided"), false)) ∧
    (analyze_lyrics_request (.json (Json.obj [("lyrics", Json.str lyrics10001)]))
      (.err "x") = ((400, errObj "Lyrics exceed maximum length"), false)) :=
  ⟨(c8_input_validation (.err "x") "e" [("genre", Json.str "pop")] "a").2.2.1 rfl,
   (c8_input_validation (.err "x") "e" [("lyrics", Json.str lyrics10001)]
     lyrics10001).2.2.2.1 rfl (by rw [lyrics10001_len]; omega)⟩

/-- C10 (confirmed): a present but falsy `lyrics` value (empty string, and any
other Python-falsy value) is rejected exactly like a missing one: 400 with
`No lyrics provided`, and the provider is not called. -/
theorem c10_falsy_lyrics (outcome : CompletionOutcome)
    (ms : List (String × Json)) (v : Json)
    (hl : List.lookup "lyrics" ms = some v) (hf : pyFalsy v = true) :
    analyze_lyrics (some (Json.obj ms)) outcome =
      ((400, errObj "No lyrics provided"), false) := by
  simp only [analyze_lyrics, hl, hf, if_true]

/-- C10, witness: a `lyrics` field holding the empty string. -/
theorem c10_witness :
    analyze_lyrics (some (Json.obj [("lyrics", Json.str "")])) (.err "x") =
      ((400, errObj "No lyrics provided"), false) :=
  c10_falsy_lyrics (.err "x") [("lyrics", Json.str "")] (Json.str "") rfl rfl

/-- C9 (confirmed): the output of `clean_quotes` never contains the sentinel
`@`, and every `@` of the input survives to the output as a double quote (the
output's quote count is at least the input's `@` count): an input `@` is
silently rewritten to `"`. -/
theorem c9_sentinel_rewrite (s : String) :
    (clean_quotes s).data.count '@' = 0 ∧
    s.data.count '@' ≤ (clean_quotes s).data.count '"' := by
  have h := clean_quotes_list_count s.data
  exact h
